import Mathlib

/-
Verification of the graph-mutation / optimization-safety subsystem
(`theano/gof/toolbox.py`): the History change log, the Validator,
the transactional ReplaceValidate composite, the NodeFinder index and
the Bookkeeper replay base.

The FunctionGraph itself is an external collaborator (it lives in
`theano/gof/fg.py`, outside the verified sources); we model exactly the
interface the toolbox code consumes: an edge topology (a total map from
(node, input-position) to the variable plugged in there), the primitive
`change_input` which repoints one edge and notifies the History observer,
and oracles for the external parts (the per-pair behaviour of
`fgraph.replace`, the external validate callbacks, and the
apply-nodes/variables membership test used by
`replace_all_validate_remove`).
-/

/-- Edge keys: (node id, input position). -/
abbrev EKey : Type := Nat × Nat

/-- Reasons attached to edits.  `History.revert` replays undo records with
the original reason wrapped under a "Revert" tag, mirroring
`reason=("Revert", self.reason)` in `LambdExtract.__call__`. -/
inductive Reason : Type where
  | user (tag : String)
  | revertTag (orig : Reason)
deriving DecidableEq, Repr

/-- One undo record, as captured by `History.on_change_input` via
`LambdExtract(fgraph, node, i, r, reason)`: node, input position, the value
the edge had before the change, and the original reason. -/
structure Record : Type where
  node : Nat
  i : Nat
  r : Nat
  reason : Reason
deriving DecidableEq, Repr

/-- A trace entry: one invocation of the graph edge-rewrite primitive
`fgraph.change_input(node, i, value, reason)`.  The trace is a ghost
observation field used to state which primitive calls happened. -/
structure CIEvent : Type where
  node : Nat
  i : Nat
  v : Nat
  reason : Reason
deriving DecidableEq, Repr

/-- The state visible to the toolbox observers: the graph edge topology,
the per-graph History log (`none` is the not-recording sentinel written by
`History.revert`), the `GetCheckpoint.nb` counter, the diagnostic stderr
stream, and the `ReplaceValidate` instance state `_nodes_removed` /
`fail_validate`.  `trace` records every `change_input` invocation. -/
structure HState : Type where
  edges : EKey → Nat
  history : Option (List Record)
  nb : Nat
  stderr : List String
  nodes_removed : List Nat
  fail_validate : Bool
  trace : List CIEvent

/-- Point update of the edge topology. -/
def applyEdit (E : EKey → Nat) (n i v : Nat) : EKey → Nat :=
  fun p => if p = (n, i) then v else E p

/-- The graph primitive `fgraph.change_input(node, i, new_r, reason)` as seen
by the History observer: the edge is repointed, and `History.on_change_input`
appends an undo record holding the previous value — unless the log is the
`none` sentinel, in which case the notification is dropped. -/
def change_input (s : HState) (n i new_r : Nat) (reason : Reason) : HState :=
  { s with
    edges := applyEdit s.edges n i new_r
    trace := s.trace ++ [⟨n, i, new_r, reason⟩]
    history :=
      match s.history with
      | none => none
      | some h => some (h ++ [⟨n, i, s.edges (n, i), reason⟩]) }

/-- Replaying a log most-recent-first over an edge topology (pure version,
used only in specifications/invariants). -/
def undoAll (log : List Record) (E : EKey → Nat) : EKey → Nat :=
  log.foldr (fun rec E => applyEdit E rec.node rec.i rec.r) E

/-- `GetCheckpoint.__call__`: reset the log to empty, bump the counter,
return the new counter value. -/
def checkpointF (s : HState) : HState × Nat :=
  ({ s with history := some [], nb := s.nb + 1 }, s.nb + 1)

/-- The replay loop of `History.revert`: `while h: f = h.pop(); f()`.
The argument list is the log already reversed (pop takes the last element
first); each replay step goes through the graph own edge-rewrite primitive
with the Revert-tagged reason. -/
def replayRev (s : HState) : List Record → HState
  | [] => s
  | rec :: rest =>
      replayRev (change_input s rec.node rec.i rec.r (Reason.revertTag rec.reason)) rest

/-- Result of `History.revert`: `assertOk = false` means the
`assert fgraph.checkpoint.nb == checkpoint` failed (an AssertionError
propagates) and `st` is the state left behind at that point. -/
structure RevertOut : Type where
  assertOk : Bool
  st : HState

/-- `History.revert(fgraph, checkpoint)`: grab the log, install the `none`
sentinel, assert the handle matches the counter, replay most-recent-first,
then resume recording with the (now empty) log. -/
def revert (s : HState) (chk : Nat) : RevertOut :=
  match s.history with
  | none =>
      if s.nb = chk then ⟨true, s⟩ else ⟨false, s⟩
  | some h =>
      let s1 : HState := { s with history := none }
      if s.nb = chk then
        let s2 := replayRev s1 h.reverse
        ⟨true, { s2 with history := some [] }⟩
      else ⟨false, s1⟩

/-- Apply a list of user-level edge rewrites, each going through
`change_input` (and hence logged by the History observer). -/
def applyUserEdits (s : HState) (edits : List CIEvent) : HState :=
  edits.foldl (fun s e => change_input s e.node e.i e.v e.reason) s

/-- The current log, empty when the sentinel is installed. -/
def logOf (s : HState) : List Record := s.history.getD []

-- ### Basic preservation lemmas

theorem change_input_nb (s : HState) (n i v : Nat) (rs : Reason) :
    (change_input s n i v rs).nb = s.nb := rfl

theorem change_input_stderr (s : HState) (n i v : Nat) (rs : Reason) :
    (change_input s n i v rs).stderr = s.stderr := rfl

theorem change_input_nodes_removed (s : HState) (n i v : Nat) (rs : Reason) :
    (change_input s n i v rs).nodes_removed = s.nodes_removed := rfl

theorem change_input_fail_validate (s : HState) (n i v : Nat) (rs : Reason) :
    (change_input s n i v rs).fail_validate = s.fail_validate := rfl

theorem change_input_edges (s : HState) (n i v : Nat) (rs : Reason) :
    (change_input s n i v rs).edges = applyEdit s.edges n i v := rfl

theorem change_input_history_none (s : HState) (n i v : Nat) (rs : Reason)
    (h : s.history = none) : (change_input s n i v rs).history = none := by
  simp [change_input, h]

theorem change_input_history_some (s : HState) (n i v : Nat) (rs : Reason)
    (l : List Record) (h : s.history = some l) :
    (change_input s n i v rs).history
      = some (l ++ [⟨n, i, s.edges (n, i), rs⟩]) := by
  simp [change_input, h]

theorem change_input_trace (s : HState) (n i v : Nat) (rs : Reason) :
    (change_input s n i v rs).trace = s.trace ++ [⟨n, i, v, rs⟩] := rfl

/-- Overwriting an edge and then writing back its old value restores the
topology exactly. -/
theorem applyEdit_cancel (E : EKey → Nat) (n i v : Nat) :
    applyEdit (applyEdit E n i v) n i (E (n, i)) = E := by
  funext p
  by_cases hp : p = (n, i) <;> simp [applyEdit, hp]

/-- One `change_input` step preserves the undo invariant: replaying the
extended log over the new topology gives the same result as replaying the
old log over the old topology. -/
theorem undoAll_change_input (s : HState) (n i v : Nat) (rs : Reason)
    (l : List Record) :
    undoAll (l ++ [⟨n, i, s.edges (n, i), rs⟩]) (change_input s n i v rs).edges
      = undoAll l s.edges := by
  have h1 : undoAll (l ++ [Record.mk n i (s.edges (n, i)) rs])
      (change_input s n i v rs).edges
      = undoAll l (applyEdit (change_input s n i v rs).edges n i (s.edges (n, i))) := by
    simp [undoAll, List.foldr_append]
  rw [h1, change_input_edges, applyEdit_cancel]

/-- The undo invariant through an arbitrary sequence of logged rewrites. -/
theorem applyUserEdits_undo (edits : List CIEvent) :
    ∀ (s : HState) (l : List Record), s.history = some l →
      ∃ l2, (applyUserEdits s edits).history = some l2 ∧
        undoAll l2 (applyUserEdits s edits).edges = undoAll l s.edges := by
  induction edits with
  | nil => exact fun s l h => ⟨l, h, rfl⟩
  | cons e rest ih =>
      intro s l h
      obtain ⟨l2, h2, hu⟩ :=
        ih (change_input s e.node e.i e.v e.reason)
          (l ++ [⟨e.node, e.i, s.edges (e.node, e.i), e.reason⟩])
          (change_input_history_some s e.node e.i e.v e.reason l h)
      refine ⟨l2, h2, ?_⟩
      rw [show applyUserEdits s (e :: rest)
            = applyUserEdits (change_input s e.node e.i e.v e.reason) rest from rfl,
          hu, undoAll_change_input s e.node e.i e.v e.reason l]

theorem applyUserEdits_fields (edits : List CIEvent) :
    ∀ (s : HState),
      (applyUserEdits s edits).nb = s.nb ∧
      (applyUserEdits s edits).stderr = s.stderr ∧
      (applyUserEdits s edits).nodes_removed = s.nodes_removed ∧
      (applyUserEdits s edits).fail_validate = s.fail_validate := by
  induction edits with
  | nil => exact fun s => ⟨rfl, rfl, rfl, rfl⟩
  | cons e rest ih =>
      intro s
      exact ih (change_input s e.node e.i e.v e.reason)

-- ### Replay and revert

theorem replayRev_spec (m : List Record) :
    ∀ (s : HState),
      (replayRev s m).edges
        = m.foldl (fun E rec => applyEdit E rec.node rec.i rec.r) s.edges ∧
      (replayRev s m).nb = s.nb ∧
      (replayRev s m).stderr = s.stderr ∧
      (replayRev s m).nodes_removed = s.nodes_removed ∧
      (replayRev s m).fail_validate = s.fail_validate ∧
      (replayRev s m).trace
        = s.trace ++ m.map (fun rec => CIEvent.mk rec.node rec.i rec.r (Reason.revertTag rec.reason)) := by
  induction m with
  | nil => exact fun s => ⟨rfl, rfl, rfl, rfl, rfl, by simp [replayRev]⟩
  | cons rec rest ih =>
      intro s
      obtain ⟨h1, h2, h3, h4, h5, h6⟩ :=
        ih (change_input s rec.node rec.i rec.r (Reason.revertTag rec.reason))
      refine ⟨?_, h2, h3, h4, h5, ?_⟩
      · rw [show replayRev s (rec :: rest)
              = replayRev (change_input s rec.node rec.i rec.r (Reason.revertTag rec.reason)) rest from rfl,
            h1, change_input_edges]
        simp
      · rw [show replayRev s (rec :: rest)
              = replayRev (change_input s rec.node rec.i rec.r (Reason.revertTag rec.reason)) rest from rfl,
            h6, change_input_trace]
        simp

theorem replayRev_history_none (m : List Record) :
    ∀ (s : HState), s.history = none → (replayRev s m).history = none := by
  induction m with
  | nil => exact fun s h => h
  | cons rec rest ih =>
      intro s h
      exact ih (change_input s rec.node rec.i rec.r (Reason.revertTag rec.reason))
        (change_input_history_none s rec.node rec.i rec.r (Reason.revertTag rec.reason) h)

/-- Replaying the reversed log with `replayRev` computes `undoAll`. -/
theorem replayRev_reverse_undoAll (l : List Record) (s : HState) :
    (replayRev s l.reverse).edges = undoAll l s.edges := by
  obtain ⟨h1, _⟩ := replayRev_spec l.reverse s
  rw [h1, undoAll, List.foldl_reverse]

/-- Specification of a successful `History.revert`. -/
theorem revert_ok (s : HState) (l : List Record) (chk : Nat)
    (hh : s.history = some l) (hc : s.nb = chk) :
    (revert s chk).assertOk = true ∧
    (revert s chk).st.edges = undoAll l s.edges ∧
    (revert s chk).st.history = some [] ∧
    (revert s chk).st.nb = s.nb ∧
    (revert s chk).st.stderr = s.stderr ∧
    (revert s chk).st.nodes_removed = s.nodes_removed ∧
    (revert s chk).st.fail_validate = s.fail_validate ∧
    (revert s chk).st.trace
      = s.trace ++ l.reverse.map (fun rec => CIEvent.mk rec.node rec.i rec.r (Reason.revertTag rec.reason)) := by
  have hrev : revert s chk
      = ⟨true, { replayRev { s with history := none } l.reverse with history := some [] }⟩ := by
    simp [revert, hh, hc]
  obtain ⟨h1, h2, h3, h4, h5, h6⟩ := replayRev_spec l.reverse { s with history := none }
  rw [hrev]
  refine ⟨rfl, ?_, rfl, ?_, ?_, ?_, ?_, ?_⟩
  · show (replayRev { s with history := none } l.reverse).edges = undoAll l s.edges
    exact replayRev_reverse_undoAll l { s with history := none }
  · exact h2
  · exact h3
  · exact h4
  · exact h5
  · exact h6

-- ### Claim C2: checkpoint / revert round trip

/-- Claim C2: for every checkpoint obtained via `checkpoint()` followed by any
sequence of edge rewrites (each logged through `on_change_input`), `revert`
replays the undo records most-recent-first through the graph own edge-rewrite
primitive with the original reason wrapped under the Revert tag, the edge
topology after the revert equals the topology at the moment the checkpoint was
taken, and recording resumes with an empty log. -/
theorem checkpoint_revert_roundtrip (s0 : HState) (edits : List CIEvent) :
    (revert (applyUserEdits (checkpointF s0).1 edits) (checkpointF s0).2).assertOk = true ∧
    (∀ p, (revert (applyUserEdits (checkpointF s0).1 edits) (checkpointF s0).2).st.edges p
            = s0.edges p) ∧
    (revert (applyUserEdits (checkpointF s0).1 edits) (checkpointF s0).2).st.history
      = some [] ∧
    (revert (applyUserEdits (checkpointF s0).1 edits) (checkpointF s0).2).st.trace
      = (applyUserEdits (checkpointF s0).1 edits).trace
          ++ (logOf (applyUserEdits (checkpointF s0).1 edits)).reverse.map
               (fun rec => CIEvent.mk rec.node rec.i rec.r (Reason.revertTag rec.reason)) := by
  have hcp : (checkpointF s0).1.history = some [] := rfl
  obtain ⟨l2, hl2, hu⟩ := applyUserEdits_undo edits (checkpointF s0).1 [] hcp
  have hnb : (applyUserEdits (checkpointF s0).1 edits).nb = (checkpointF s0).2 :=
    (applyUserEdits_fields edits (checkpointF s0).1).1
  obtain ⟨h1, h2, h3, _, _, _, _, h8⟩ :=
    revert_ok (applyUserEdits (checkpointF s0).1 edits) l2 (checkpointF s0).2 hl2 hnb
  refine ⟨h1, ?_, h3, ?_⟩
  · intro p
    have : undoAll l2 (applyUserEdits (checkpointF s0).1 edits).edges = s0.edges := by
      rw [hu]; rfl
    rw [h2, this]
  · rw [h8, logOf, hl2]
    rfl

-- ### Claim C9: revert with a stale checkpoint handle

/-- Claim C9 (amended): if `revert` is called with a handle different from the
most recently issued checkpoint number, the assertion fails only after the
not-recording sentinel has been installed; no replay happens, and while the
sentinel is in place every `on_change_input` notification is dropped.  The
sentinel is however cleared by the next `checkpoint()` call, which resets the
log to empty and resumes recording. -/
theorem revert_stale_handle (s : HState) (chk : Nat) (l : List Record)
    (hh : s.history = some l) (hne : s.nb ≠ chk) :
    (revert s chk).assertOk = false ∧
    (revert s chk).st.history = none ∧
    (revert s chk).st.edges = s.edges ∧
    (revert s chk).st.trace = s.trace ∧
    (∀ n i v r, (change_input (revert s chk).st n i v r).history = none) ∧
    (checkpointF (revert s chk).st).1.history = some [] := by
  have hrev : revert s chk = ⟨false, { s with history := none }⟩ := by
    simp [revert, hh, hne]
  rw [hrev]
  exact ⟨rfl, rfl, rfl, rfl, fun n i v r => change_input_history_none _ n i v r rfl, rfl⟩

/-- A concrete starting state for the C9 counterexample. -/
def sC9 : HState :=
  { edges := fun _ => 0
    history := some []
    nb := 1
    stderr := []
    nodes_removed := []
    fail_validate := false
    trace := [] }

/-- Claim C9 counterexample: after a failed `revert` the sentinel is NOT
permanent — the very next `checkpoint()` call clears it (log becomes the empty
list again) and a subsequent `on_change_input` notification is recorded, so the
change log is not permanently disabled. -/
theorem revert_stale_handle_cex :
    (revert sC9 0).assertOk = false ∧
    (revert sC9 0).st.history = none ∧
    (checkpointF (revert sC9 0).st).1.history = some [] ∧
    (change_input (checkpointF (revert sC9 0).st).1 0 0 7 (Reason.user "x")).history
      = some [⟨0, 0, 0, Reason.user "x"⟩] := by
  exact ⟨rfl, rfl, rfl, rfl⟩

-- ### String containment (the `s in msg` tests of replace_all_validate)

/-- Boolean prefix test on char lists. -/
def listIsPrefix : List Char → List Char → Bool
  | [], _ => true
  | _ :: _, [] => false
  | a :: as, b :: bs => a = b && listIsPrefix as bs

/-- Boolean infix test on char lists. -/
def listIsInfix (p : List Char) : List Char → Bool
  | [] => listIsPrefix p []
  | b :: bs => listIsPrefix p (b :: bs) || listIsInfix p bs

/-- The `needle in hay` substring test used to classify exception messages. -/
def strContains (needle hay : String) : Bool :=
  listIsInfix needle.data hay.data

/-- Literal from `replace_all_validate`: the recoverable type-mismatch text. -/
def msg_s1 : String := "The type of the replacement must be the same"

/-- Literal from `replace_all_validate`: the recoverable foreign-value text. -/
def msg_s2 : String := "does not belong to this FunctionGraph"

/-- Literal from `replace_all_validate`: the unrecoverable depth-exhaustion text. -/
def msg_s3 : String := "maximum recursion depth exceeded"

/-- The workaround note appended to the args of a depth-exhaustion error. -/
def depthExtra : String :=
  "Please, report this to theano-dev mailing list. As a temporary work around, you can raise Python stack limit with: import sys; sys.setrecursionlimit(10000)"

/-- The diagnostic line printed to stderr for unexpected rewrite failures. -/
def bugLine (msg : String) : String :=
  "<<!! BUG IN FGRAPH.REPLACE OR A LISTENER !!>> " ++ msg

/-- The warning printed by `replace_all_validate_remove` when a node that was
supposed to be removed is still present. -/
def removeWarning : String :=
  "WARNING: An optimization wanted to replace a Variable in the graph, but the replacement for it does not remove it. We disabled the optimization."

-- ### Errors and transaction outcomes

/-- Kinds of exceptions surfaced by the transactional component. -/
inductive ErrKind : Type where
  | generic
  | inconsistency
  | assertionFailed
  | replacementDidntRemoved
deriving DecidableEq, Repr

/-- An exception: kind, message, and any extra args appended via `e.args +=`. -/
structure PyErr : Type where
  kind : ErrKind
  msg : String
  extra : List String
deriving DecidableEq, Repr

/-- One primitive edge rewrite performed inside `fgraph.replace`. -/
structure PEdit : Type where
  node : Nat
  i : Nat
  v : Nat
deriving DecidableEq, Repr

/-- Behaviour of one `fgraph.replace(r, new_r, ...)` call, supplied by the
external graph: either it succeeds after performing a list of primitive edge
rewrites, or it raises an exception with message `msg` after performing a
prefix of them. -/
inductive ReplOutcome : Type where
  | ok (edits : List PEdit)
  | err (edits : List PEdit) (msg : String)
deriving DecidableEq, Repr

/-- Perform the primitive rewrites of one `fgraph.replace` call; each goes
through `change_input` with the transaction reason, so it is logged. -/
def applyPEdits (s : HState) (reason : Reason) (edits : List PEdit) : HState :=
  edits.foldl (fun s e => change_input s e.node e.i e.v reason) s

/-- Perform a sequence of successful `fgraph.replace` calls. -/
def applyOks (s : HState) (reason : Reason) (okss : List (List PEdit)) : HState :=
  okss.foldl (fun s edits => applyPEdits s reason edits) s

/-- Result of `replace_all_validate`: `raised = none` means normal return of
the checkpoint handle `chk`; otherwise the exception that propagated. -/
structure RAVOut : Type where
  raised : Option PyErr
  chk : Nat
  st : HState

/-- `fgraph.revert(chk)` followed by re-raising `e` — the revert path of
`replace_all_validate`.  If the revert assertion fails, the AssertionError
propagates instead of the original exception. -/
def revertRaise (s : HState) (chk : Nat) (e : PyErr) : RAVOut :=
  if (revert s chk).assertOk then ⟨some e, chk, (revert s chk).st⟩
  else ⟨some ⟨ErrKind.assertionFailed, "fgraph.checkpoint.nb == checkpoint", []⟩,
        chk, (revert s chk).st⟩

/-- The rewrite loop of `replace_all_validate`: apply each pair; on an
exception classify its message — depth exhaustion propagates immediately with
the workaround note appended and without reverting; the two expected messages
revert and re-raise; anything else prints the bug line to stderr, then reverts
and re-raises. -/
def ravLoop (chk : Nat) (reason : Reason) :
    List ReplOutcome → HState → RAVOut ⊕ HState
  | [], s => Sum.inr s
  | ReplOutcome.ok edits :: rest, s =>
      ravLoop chk reason rest (applyPEdits s reason edits)
  | ReplOutcome.err edits msg :: _, s =>
      let sf := applyPEdits s reason edits
      if strContains msg_s3 msg then
        Sum.inl ⟨some ⟨ErrKind.generic, msg, [depthExtra]⟩, chk, sf⟩
      else
        let sf2 :=
          if strContains msg_s1 msg || strContains msg_s2 msg then sf
          else { sf with stderr := sf.stderr ++ [bugLine msg] }
        Sum.inl (revertRaise sf2 chk ⟨ErrKind.generic, msg, []⟩)

/-- The InconsistencyError message of `ReplaceValidate.validate`. -/
def reintroduceMsg : String := "Trying to reintroduce a removed node"

/-- `ReplaceValidate.validate`: the own validate contribution of the
transactional component — if `fail_validate` is armed, clear it and raise
InconsistencyError. -/
def rv_validate_step (s : HState) : HState × Option PyErr :=
  if s.fail_validate then
    ({ s with fail_validate := false },
     some ⟨ErrKind.inconsistency, reintroduceMsg, []⟩)
  else (s, none)

/-- `fgraph.validate()`: execute the validate callbacks — the own contribution
of `ReplaceValidate` plus the external checks, modelled by the oracle `vo`
(a function of the current edge topology; `some m` is a failure). -/
def fg_validate (vo : (EKey → Nat) → Option String) (s : HState) :
    HState × Option PyErr :=
  match rv_validate_step s with
  | (s1, some e) => (s1, some e)
  | (s1, none) =>
      match vo s1.edges with
      | some m => (s1, some ⟨ErrKind.inconsistency, m, []⟩)
      | none => (s1, none)

/-- `ReplaceValidate.replace_all_validate(fgraph, replacements, reason)`:
take a checkpoint, run the rewrite loop, then validate; a validation failure
reverts to the checkpoint and re-raises; on success return the checkpoint. -/
def replace_all_validate (s : HState) (behs : List ReplOutcome) (reason : Reason)
    (vo : (EKey → Nat) → Option String) : RAVOut :=
  let s0 := (checkpointF s).1
  let chk := (checkpointF s).2
  match ravLoop chk reason behs s0 with
  | Sum.inl out => out
  | Sum.inr s1 =>
      match fg_validate vo s1 with
      | (s2, none) => ⟨none, chk, s2⟩
      | (s2, some e) => revertRaise s2 chk e

/-- Result of `replace_all_validate_remove`. -/
structure RAVROut : Type where
  raised : Option PyErr
  st : HState

/-- `self._nodes_removed.update(remove)`: record the nodes an in-flight
transaction intends to eliminate. -/
def withRemoved (st : HState) (remove : List Nat) : HState :=
  { st with nodes_removed := st.nodes_removed ++ remove }

/-- The body of `replace_all_validate_remove` after the inner transaction:
propagate an inner exception unchanged; otherwise record the must-be-removed
nodes and scan them for continued presence — the first one still present
triggers a revert to the inner checkpoint, the warning when `warn` is set,
and a ReplacementDidntRemovedError. -/
def ravRemoveCheck (out : RAVOut) (remove : List Nat) (warn : Bool)
    (present : (EKey → Nat) → Nat → Bool) : RAVROut :=
  match out.raised with
  | some e => ⟨some e, out.st⟩
  | none =>
      match remove.find? (fun rm => present (withRemoved out.st remove).edges rm) with
      | none => ⟨none, withRemoved out.st remove⟩
      | some _ =>
          if (revert (withRemoved out.st remove) out.chk).assertOk then
            if warn then
              ⟨some ⟨ErrKind.replacementDidntRemoved, "", []⟩,
                { (revert (withRemoved out.st remove) out.chk).st with
                  stderr := (revert (withRemoved out.st remove) out.chk).st.stderr
                    ++ [removeWarning] }⟩
            else
              ⟨some ⟨ErrKind.replacementDidntRemoved, "", []⟩,
                (revert (withRemoved out.st remove) out.chk).st⟩
          else
            ⟨some ⟨ErrKind.assertionFailed, "fgraph.checkpoint.nb == checkpoint", []⟩,
              (revert (withRemoved out.st remove) out.chk).st⟩

/-- `ReplaceValidate.replace_all_validate_remove`: run the inner transaction,
then enforce the removal contract. -/
def replace_all_validate_remove (s : HState) (behs : List ReplOutcome)
    (remove : List Nat) (reason : Reason) (vo : (EKey → Nat) → Option String)
    (present : (EKey → Nat) → Nat → Bool) (warn : Bool) : RAVROut :=
  ravRemoveCheck (replace_all_validate s behs reason vo) remove warn present

/-- `ReplaceValidate.on_import`: arm `fail_validate` when a node recorded in
`_nodes_removed` is imported again. -/
def rv_on_import (s : HState) (node : Nat) : HState :=
  if node ∈ s.nodes_removed then { s with fail_validate := true } else s

-- ### Lemmas about the rewrite loop

theorem applyPEdits_eq_user (s : HState) (reason : Reason) (edits : List PEdit) :
    applyPEdits s reason edits
      = applyUserEdits s (edits.map (fun e => CIEvent.mk e.node e.i e.v reason)) := by
  rw [applyUserEdits, List.foldl_map]
  rfl

theorem applyPEdits_undo (s : HState) (reason : Reason) (edits : List PEdit)
    (l : List Record) (h : s.history = some l) :
    ∃ l2, (applyPEdits s reason edits).history = some l2 ∧
      undoAll l2 (applyPEdits s reason edits).edges = undoAll l s.edges := by
  rw [applyPEdits_eq_user]
  exact applyUserEdits_undo _ s l h

theorem applyPEdits_fields (s : HState) (reason : Reason) (edits : List PEdit) :
    (applyPEdits s reason edits).nb = s.nb ∧
    (applyPEdits s reason edits).stderr = s.stderr ∧
    (applyPEdits s reason edits).nodes_removed = s.nodes_removed ∧
    (applyPEdits s reason edits).fail_validate = s.fail_validate := by
  rw [applyPEdits_eq_user]
  exact applyUserEdits_fields _ s

theorem applyOks_undo (okss : List (List PEdit)) :
    ∀ (s : HState) (reason : Reason) (l : List Record), s.history = some l →
      ∃ l2, (applyOks s reason okss).history = some l2 ∧
        undoAll l2 (applyOks s reason okss).edges = undoAll l s.edges := by
  induction okss with
  | nil => exact fun s reason l h => ⟨l, h, rfl⟩
  | cons edits rest ih =>
      intro s reason l h
      obtain ⟨l1, h1, hu1⟩ := applyPEdits_undo s reason edits l h
      obtain ⟨l2, h2, hu2⟩ := ih (applyPEdits s reason edits) reason l1 h1
      exact ⟨l2, h2, by rw [show applyOks s reason (edits :: rest)
        = applyOks (applyPEdits s reason edits) reason rest from rfl, hu2, hu1]⟩

theorem applyOks_fields (okss : List (List PEdit)) :
    ∀ (s : HState) (reason : Reason),
      (applyOks s reason okss).nb = s.nb ∧
      (applyOks s reason okss).stderr = s.stderr ∧
      (applyOks s reason okss).nodes_removed = s.nodes_removed ∧
      (applyOks s reason okss).fail_validate = s.fail_validate := by
  induction okss with
  | nil => exact fun s reason => ⟨rfl, rfl, rfl, rfl⟩
  | cons edits rest ih =>
      intro s reason
      obtain ⟨h1, h2, h3, h4⟩ := ih (applyPEdits s reason edits) reason
      obtain ⟨g1, g2, g3, g4⟩ := applyPEdits_fields s reason edits
      exact ⟨by rw [show applyOks s reason (edits :: rest)
                = applyOks (applyPEdits s reason edits) reason rest from rfl, h1, g1],
             by rw [show applyOks s reason (edits :: rest)
                = applyOks (applyPEdits s reason edits) reason rest from rfl, h2, g2],
             by rw [show applyOks s reason (edits :: rest)
                = applyOks (applyPEdits s reason edits) reason rest from rfl, h3, g3],
             by rw [show applyOks s reason (edits :: rest)
                = applyOks (applyPEdits s reason edits) reason rest from rfl, h4, g4]⟩

/-- When the revert assertion passes, `revertRaise` re-raises the original
exception over the reverted state. -/
theorem revertRaise_ok (s : HState) (chk : Nat) (e : PyErr)
    (h : (revert s chk).assertOk = true) :
    revertRaise s chk e = ⟨some e, chk, (revert s chk).st⟩ := by
  rw [revertRaise.eq_def, h]
  simp

/-- Unfolding of the rewrite loop at a failing replace call. -/
theorem ravLoop_err_step (chk : Nat) (reason : Reason) (edits : List PEdit)
    (msg : String) (rest : List ReplOutcome) (s : HState) :
    ravLoop chk reason (ReplOutcome.err edits msg :: rest) s
      = (if strContains msg_s3 msg then
           Sum.inl ⟨some ⟨ErrKind.generic, msg, [depthExtra]⟩, chk,
             applyPEdits s reason edits⟩
         else
           Sum.inl (revertRaise
             (if strContains msg_s1 msg || strContains msg_s2 msg then
                applyPEdits s reason edits
              else { applyPEdits s reason edits with
                     stderr := (applyPEdits s reason edits).stderr ++ [bugLine msg] })
             chk ⟨ErrKind.generic, msg, []⟩)) := rfl

/-- Running the rewrite loop over a prefix of successful replace calls just
applies their edits. -/
theorem ravLoop_ok_prefix (chk : Nat) (reason : Reason) (okss : List (List PEdit)) :
    ∀ (rest : List ReplOutcome) (s : HState),
      ravLoop chk reason (okss.map ReplOutcome.ok ++ rest) s
        = ravLoop chk reason rest (applyOks s reason okss) := by
  induction okss with
  | nil => exact fun rest s => rfl
  | cons edits tl ih =>
      intro rest s
      exact ih rest (applyPEdits s reason edits)

/-- Master case analysis for the rewrite loop: starting from a state whose log
replays to `E0` and whose counter equals the checkpoint, the loop either
returns a state with the same replay target, or short-circuits with a
depth-exhaustion raise (no revert: the state is exactly the one at the failure
point), or reverts and re-raises the original message (edge topology restored
to `E0`, log reset to empty). -/
theorem ravLoop_cases (reason : Reason) (chk : Nat) :
    ∀ (behs : List ReplOutcome) (s : HState) (l : List Record),
      s.history = some l → s.nb = chk →
      (∃ s1 l1, ravLoop chk reason behs s = Sum.inr s1 ∧
          s1.history = some l1 ∧ s1.nb = chk ∧
          undoAll l1 s1.edges = undoAll l s.edges ∧
          s1.fail_validate = s.fail_validate ∧
          s1.stderr = s.stderr ∧ s1.nodes_removed = s.nodes_removed) ∨
      (∃ out msg, ravLoop chk reason behs s = Sum.inl out ∧ out.chk = chk ∧
          ((strContains msg_s3 msg = true ∧
              out.raised = some ⟨ErrKind.generic, msg, [depthExtra]⟩) ∨
           (strContains msg_s3 msg = false ∧
              out.raised = some ⟨ErrKind.generic, msg, []⟩ ∧
              out.st.edges = undoAll l s.edges ∧
              out.st.history = some []))) := by
  intro behs
  induction behs with
  | nil =>
      intro s l hh hc
      exact Or.inl ⟨s, l, rfl, hh, hc, rfl, rfl, rfl, rfl⟩
  | cons b rest ih =>
      intro s l hh hc
      cases b with
      | ok edits =>
          obtain ⟨l1, h1, hu1⟩ := applyPEdits_undo s reason edits l hh
          obtain ⟨f1, f2, f3, f4⟩ := applyPEdits_fields s reason edits
          have hstep : ravLoop chk reason (ReplOutcome.ok edits :: rest) s
              = ravLoop chk reason rest (applyPEdits s reason edits) := rfl
          rcases ih (applyPEdits s reason edits) l1 h1 (by rw [f1, hc]) with
            ⟨s1, l2, hr, g1, g2, g3, g4, g5, g6⟩ | ⟨out, msg, hr, gchk, gcase⟩
          · refine Or.inl ⟨s1, l2, by rw [hstep, hr], g1, g2, ?_, ?_, ?_, ?_⟩
            · rw [g3, hu1]
            · rw [g4, f4]
            · rw [g5, f2]
            · rw [g6, f3]
          · refine Or.inr ⟨out, msg, by rw [hstep, hr], gchk, ?_⟩
            rcases gcase with ⟨hm, hrr⟩ | ⟨hm, hrr, he, hl⟩
            · exact Or.inl ⟨hm, hrr⟩
            · exact Or.inr ⟨hm, hrr, by rw [he, hu1], hl⟩
      | err edits msg =>
          obtain ⟨l1, h1, hu1⟩ := applyPEdits_undo s reason edits l hh
          obtain ⟨f1, f2, f3, f4⟩ := applyPEdits_fields s reason edits
          by_cases hm : strContains msg_s3 msg = true
          · refine Or.inr ⟨⟨some ⟨ErrKind.generic, msg, [depthExtra]⟩, chk,
              applyPEdits s reason edits⟩, msg, ?_, rfl, Or.inl ⟨hm, rfl⟩⟩
            rw [ravLoop_err_step, if_pos hm]
          · have hm2 : strContains msg_s3 msg = false := by
              cases hval : strContains msg_s3 msg
              · rfl
              · exact absurd hval hm
            by_cases hc12 : (strContains msg_s1 msg || strContains msg_s2 msg) = true
            · -- expected (recoverable) message: revert silently, re-raise
              obtain ⟨r1, r2, r3, _⟩ :=
                revert_ok (applyPEdits s reason edits) l1 chk h1 (by rw [f1, hc])
              have hstep : ravLoop chk reason (ReplOutcome.err edits msg :: rest) s
                  = Sum.inl (revertRaise (applyPEdits s reason edits) chk
                      ⟨ErrKind.generic, msg, []⟩) := by
                rw [ravLoop_err_step, if_neg hm, if_pos hc12]
              have hrr := revertRaise_ok (applyPEdits s reason edits) chk
                ⟨ErrKind.generic, msg, []⟩ r1
              refine Or.inr ⟨_, msg, by rw [hstep, hrr], rfl,
                Or.inr ⟨hm2, rfl, ?_, r3⟩⟩
              rw [r2, hu1]
            · -- unexpected message: print the bug line, then revert and re-raise
              have h1b : ({ applyPEdits s reason edits with
                  stderr := (applyPEdits s reason edits).stderr ++ [bugLine msg] } : HState).history
                  = some l1 := h1
              obtain ⟨r1, r2, r3, _⟩ :=
                revert_ok { applyPEdits s reason edits with
                    stderr := (applyPEdits s reason edits).stderr ++ [bugLine msg] }
                  l1 chk h1b (by show (applyPEdits s reason edits).nb = chk; rw [f1, hc])
              have hstep : ravLoop chk reason (ReplOutcome.err edits msg :: rest) s
                  = Sum.inl (revertRaise
                      { applyPEdits s reason edits with
                        stderr := (applyPEdits s reason edits).stderr ++ [bugLine msg] }
                      chk ⟨ErrKind.generic, msg, []⟩) := by
                rw [ravLoop_err_step, if_neg hm, if_neg hc12]
              have hrr := revertRaise_ok
                { applyPEdits s reason edits with
                  stderr := (applyPEdits s reason edits).stderr ++ [bugLine msg] }
                chk ⟨ErrKind.generic, msg, []⟩ r1
              refine Or.inr ⟨_, msg, by rw [hstep, hrr], rfl,
                Or.inr ⟨hm2, rfl, ?_, r3⟩⟩
              rw [r2]
              show undoAll l1 (applyPEdits s reason edits).edges = undoAll l s.edges
              rw [hu1]

-- ### Lemmas about validation

theorem fg_validate_fields (vo : (EKey → Nat) → Option String) (s : HState) :
    (fg_validate vo s).1.edges = s.edges ∧
    (fg_validate vo s).1.history = s.history ∧
    (fg_validate vo s).1.nb = s.nb ∧
    (fg_validate vo s).1.stderr = s.stderr ∧
    (fg_validate vo s).1.nodes_removed = s.nodes_removed := by
  by_cases h : s.fail_validate = true
  · simp [fg_validate, rv_validate_step, h]
  · have h2 : s.fail_validate = false := by
      cases hv : s.fail_validate
      · rfl
      · exact absurd hv h
    cases hvo : vo s.edges <;> simp [fg_validate, rv_validate_step, h2, hvo]

theorem fg_validate_err_kind (vo : (EKey → Nat) → Option String) (s : HState)
    (e : PyErr) (h : (fg_validate vo s).2 = some e) :
    e.kind = ErrKind.inconsistency ∧ e.extra = [] := by
  by_cases hf : s.fail_validate = true
  · simp [fg_validate, rv_validate_step, hf] at h
    rw [← h]
    exact ⟨rfl, rfl⟩
  · have h2 : s.fail_validate = false := by
      cases hv : s.fail_validate
      · rfl
      · exact absurd hv hf
    cases hvo : vo s.edges with
    | none => simp [fg_validate, rv_validate_step, h2, hvo] at h
    | some m =>
        simp [fg_validate, rv_validate_step, h2, hvo] at h
        rw [← h]
        exact ⟨rfl, rfl⟩

/-- Unfolding of `replace_all_validate`. -/
theorem replace_all_validate_eq (s : HState) (behs : List ReplOutcome)
    (reason : Reason) (vo : (EKey → Nat) → Option String) :
    replace_all_validate s behs reason vo
      = (match ravLoop (checkpointF s).2 reason behs (checkpointF s).1 with
         | Sum.inl out => out
         | Sum.inr s1 =>
             match fg_validate vo s1 with
             | (s2, none) => ⟨none, (checkpointF s).2, s2⟩
             | (s2, some e) => revertRaise s2 (checkpointF s).2 e) := rfl

-- ### Claim C1: atomicity of failed transactions

/-- Claim C1: whenever `replace_all_validate` raises and the error is not the
depth-exhaustion case (validation failed after all pairs were applied, or an
individual rewrite failed recoverably or unexpectedly), the edge topology
after the call equals the topology immediately before the call (the state at
the checkpoint taken at the start), the log is reset, and the original error
is re-raised unmodified (it is neither the revert AssertionError nor the
args-augmented depth error). -/
theorem replace_all_validate_atomic (s : HState) (behs : List ReplOutcome)
    (reason : Reason) (vo : (EKey → Nat) → Option String) (e : PyErr)
    (h : (replace_all_validate s behs reason vo).raised = some e)
    (hnd : strContains msg_s3 e.msg = false) :
    (∀ p, (replace_all_validate s behs reason vo).st.edges p = s.edges p) ∧
    (replace_all_validate s behs reason vo).st.history = some [] ∧
    e.kind ≠ ErrKind.assertionFailed ∧ e.extra = [] := by
  have hs0h : (checkpointF s).1.history = some [] := rfl
  have hs0nb : (checkpointF s).1.nb = (checkpointF s).2 := rfl
  rcases ravLoop_cases reason (checkpointF s).2 behs (checkpointF s).1 [] hs0h hs0nb with
    ⟨s1, l1, hr, g1, g2, g3, _, _, _⟩ | ⟨out, msg, hr, _, gcase⟩
  · -- the rewrite loop completed; the raise must come from validation
    have heq : replace_all_validate s behs reason vo
        = (match fg_validate vo s1 with
           | (s2, none) => ⟨none, (checkpointF s).2, s2⟩
           | (s2, some e2) => revertRaise s2 (checkpointF s).2 e2) := by
      rw [replace_all_validate_eq, hr]
    obtain ⟨v1, v2, v3, _, _⟩ := fg_validate_fields vo s1
    rcases hfv : fg_validate vo s1 with ⟨s2, rv⟩
    cases rv with
    | none =>
        rw [heq, hfv] at h
        exact absurd h (by simp)
    | some e2 =>
        have hs2h : s2.history = some l1 := by
          rw [hfv] at v2
          exact v2.trans g1
        have hs2nb : s2.nb = (checkpointF s).2 := by
          rw [hfv] at v3
          exact v3.trans g2
        obtain ⟨r1, r2, r3, _⟩ := revert_ok s2 l1 (checkpointF s).2 hs2h hs2nb
        have heq2 : replace_all_validate s behs reason vo
            = ⟨some e2, (checkpointF s).2, (revert s2 (checkpointF s).2).st⟩ := by
          rw [heq, hfv]
          exact revertRaise_ok s2 (checkpointF s).2 e2 r1
        rw [heq2] at h
        have hee : e = e2 := by
          have : some e2 = some e := h
          exact (Option.some.inj this).symm
        obtain ⟨k1, k2⟩ := fg_validate_err_kind vo s1 e2 (by rw [hfv])
        refine ⟨?_, by rw [heq2]; exact r3, ?_, ?_⟩
        · intro p
          rw [heq2]
          show (revert s2 (checkpointF s).2).st.edges p = s.edges p
          rw [r2]
          have hs2e : s2.edges = s1.edges := by
            rw [hfv] at v1
            exact v1
          rw [hs2e, g3]
          rfl
        · rw [hee, k1]
          intro hcon
          exact ErrKind.noConfusion hcon
        · rw [hee, k2]
  · -- the rewrite loop raised
    have heq : replace_all_validate s behs reason vo = out := by
      rw [replace_all_validate_eq, hr]
    rcases gcase with ⟨hm, hrr⟩ | ⟨hm, hrr, he, hl⟩
    · -- depth exhaustion: excluded by the hypothesis on the message
      rw [heq, hrr] at h
      have hee : e = ⟨ErrKind.generic, msg, [depthExtra]⟩ := (Option.some.inj h).symm
      rw [hee] at hnd
      rw [show (PyErr.mk ErrKind.generic msg [depthExtra]).msg = msg from rfl] at hnd
      rw [hm] at hnd
      exact absurd hnd (by simp)
    · rw [heq, hrr] at h
      have hee : e = ⟨ErrKind.generic, msg, []⟩ := (Option.some.inj h).symm
      refine ⟨?_, by rw [heq]; exact hl, ?_, ?_⟩
      · intro p
        rw [heq, he]
        rfl
      · rw [hee]
        intro hcon
        exact ErrKind.noConfusion hcon
      · rw [hee]

/-- All edges initially point at variable 0. -/
def edges0 : EKey → Nat := fun _ => 0

/-- A concrete fresh state used by witnesses. -/
def sInit : HState :=
  { edges := edges0
    history := some []
    nb := 0
    stderr := []
    nodes_removed := []
    fail_validate := false
    trace := [] }

/-- A validation oracle that always fails. -/
def voFailW : (EKey → Nat) → Option String := fun _ => some "Inconsistency: bad graph"

/-- One successful replace call performing one primitive rewrite. -/
def behsW : List ReplOutcome := [ReplOutcome.ok [⟨0, 0, 5⟩]]

/-- Witness for claim C1: a concrete transaction whose single rewrite succeeds
and whose validation fails; the call re-raises the validation error and the
edge at (0,0) is back to its pre-call value. -/
theorem replace_all_validate_atomic_witness :
    (replace_all_validate sInit behsW (Reason.user "opt") voFailW).raised
      = some ⟨ErrKind.inconsistency, "Inconsistency: bad graph", []⟩ ∧
    strContains msg_s3 "Inconsistency: bad graph" = false ∧
    (replace_all_validate sInit behsW (Reason.user "opt") voFailW).st.edges (0, 0)
      = sInit.edges (0, 0) ∧
    (replace_all_validate sInit behsW (Reason.user "opt") voFailW).st.history
      = some [] := by
  have h : (replace_all_validate sInit behsW (Reason.user "opt") voFailW).raised
      = some ⟨ErrKind.inconsistency, "Inconsistency: bad graph", []⟩ := rfl
  have hnd : strContains msg_s3 "Inconsistency: bad graph" = false := by decide
  obtain ⟨a1, a2, _, _⟩ :=
    replace_all_validate_atomic sInit behsW (Reason.user "opt") voFailW _ h hnd
  exact ⟨h, hnd, a1 (0, 0), a2⟩

-- ### Claim C3: error classification in replace_all_validate

/-- Claim C3: when an individual rewrite raises, a stack-depth-exhaustion
message propagates immediately with the workaround note appended and WITHOUT
reverting (the returned state is exactly the state at the failure point); a
type-mismatch or does-not-belong message reverts to the checkpoint and
re-raises the original error with no diagnostic output; any other message is
first logged to the stderr stream (the bug line) and then the graph is
reverted and the original error re-raised. -/
theorem rav_error_classification (s : HState) (reason : Reason)
    (vo : (EKey → Nat) → Option String) (okss : List (List PEdit))
    (edits : List PEdit) (msg : String) (rest : List ReplOutcome) :
    (strContains msg_s3 msg = true →
      replace_all_validate s (okss.map ReplOutcome.ok ++ ReplOutcome.err edits msg :: rest)
          reason vo
        = ⟨some ⟨ErrKind.generic, msg, [depthExtra]⟩, (checkpointF s).2,
            applyPEdits (applyOks (checkpointF s).1 reason okss) reason edits⟩) ∧
    (strContains msg_s3 msg = false →
     (strContains msg_s1 msg || strContains msg_s2 msg) = true →
      (replace_all_validate s (okss.map ReplOutcome.ok ++ ReplOutcome.err edits msg :: rest)
          reason vo).raised = some ⟨ErrKind.generic, msg, []⟩ ∧
      (∀ p, (replace_all_validate s
          (okss.map ReplOutcome.ok ++ ReplOutcome.err edits msg :: rest)
          reason vo).st.edges p = s.edges p) ∧
      (replace_all_validate s (okss.map ReplOutcome.ok ++ ReplOutcome.err edits msg :: rest)
          reason vo).st.stderr = s.stderr) ∧
    (strContains msg_s3 msg = false →
     (strContains msg_s1 msg || strContains msg_s2 msg) = false →
      (replace_all_validate s (okss.map ReplOutcome.ok ++ ReplOutcome.err edits msg :: rest)
          reason vo).raised = some ⟨ErrKind.generic, msg, []⟩ ∧
      (∀ p, (replace_all_validate s
          (okss.map ReplOutcome.ok ++ ReplOutcome.err edits msg :: rest)
          reason vo).st.edges p = s.edges p) ∧
      (replace_all_validate s (okss.map ReplOutcome.ok ++ ReplOutcome.err edits msg :: rest)
          reason vo).st.stderr = s.stderr ++ [bugLine msg]) := by
  have hs0h : (checkpointF s).1.history = some [] := rfl
  obtain ⟨l1, h1, hu1⟩ := applyOks_undo okss (checkpointF s).1 reason [] hs0h
  obtain ⟨o1, o2, _, _⟩ := applyOks_fields okss (checkpointF s).1 reason
  obtain ⟨l2, h2, hu2⟩ :=
    applyPEdits_undo (applyOks (checkpointF s).1 reason okss) reason edits l1 h1
  obtain ⟨p1, p2, _, _⟩ :=
    applyPEdits_fields (applyOks (checkpointF s).1 reason okss) reason edits
  have hmidnb : (applyPEdits (applyOks (checkpointF s).1 reason okss) reason edits).nb
      = (checkpointF s).2 := by
    rw [p1, o1]
    rfl
  have hmidstderr :
      (applyPEdits (applyOks (checkpointF s).1 reason okss) reason edits).stderr
        = s.stderr := by
    rw [p2, o2]
    rfl
  have hundo : undoAll l2
      (applyPEdits (applyOks (checkpointF s).1 reason okss) reason edits).edges
      = s.edges := by
    rw [hu2, hu1]
    rfl
  have hloop : ravLoop (checkpointF s).2 reason
      (okss.map ReplOutcome.ok ++ ReplOutcome.err edits msg :: rest) (checkpointF s).1
      = ravLoop (checkpointF s).2 reason (ReplOutcome.err edits msg :: rest)
          (applyOks (checkpointF s).1 reason okss) :=
    ravLoop_ok_prefix (checkpointF s).2 reason okss _ (checkpointF s).1
  refine ⟨?_, ?_, ?_⟩
  · -- depth exhaustion
    intro hm
    rw [replace_all_validate_eq, hloop, ravLoop_err_step, if_pos hm]
  · -- expected (recoverable) message
    intro hm hc12
    have hmne : ¬ strContains msg_s3 msg = true := by
      rw [hm]
      simp
    obtain ⟨r1, r2, r3, _, r5, _⟩ :=
      revert_ok (applyPEdits (applyOks (checkpointF s).1 reason okss) reason edits)
        l2 (checkpointF s).2 h2 hmidnb
    have heq : replace_all_validate s
        (okss.map ReplOutcome.ok ++ ReplOutcome.err edits msg :: rest) reason vo
        = ⟨some ⟨ErrKind.generic, msg, []⟩, (checkpointF s).2,
            (revert (applyPEdits (applyOks (checkpointF s).1 reason okss) reason edits)
              (checkpointF s).2).st⟩ := by
      rw [replace_all_validate_eq, hloop, ravLoop_err_step, if_neg hmne, if_pos hc12,
        revertRaise_ok _ _ _ r1]
    rw [heq]
    refine ⟨rfl, ?_, ?_⟩
    · intro p
      show (revert _ _).st.edges p = s.edges p
      rw [r2, hundo]
    · show (revert _ _).st.stderr = s.stderr
      rw [r5, hmidstderr]
  · -- unexpected message: bug line printed, then revert
    intro hm hc12
    have hmne : ¬ strContains msg_s3 msg = true := by
      rw [hm]
      simp
    have hc12ne : ¬ (strContains msg_s1 msg || strContains msg_s2 msg) = true := by
      rw [hc12]
      simp
    have h2b : ({ applyPEdits (applyOks (checkpointF s).1 reason okss) reason edits with
        stderr := (applyPEdits (applyOks (checkpointF s).1 reason okss) reason edits).stderr
          ++ [bugLine msg] } : HState).history = some l2 := h2
    obtain ⟨r1, r2, r3, _, r5, _⟩ :=
      revert_ok { applyPEdits (applyOks (checkpointF s).1 reason okss) reason edits with
          stderr := (applyPEdits (applyOks (checkpointF s).1 reason okss) reason edits).stderr
            ++ [bugLine msg] }
        l2 (checkpointF s).2 h2b hmidnb
    have heq : replace_all_validate s
        (okss.map ReplOutcome.ok ++ ReplOutcome.err edits msg :: rest) reason vo
        = ⟨some ⟨ErrKind.generic, msg, []⟩, (checkpointF s).2,
            (revert { applyPEdits (applyOks (checkpointF s).1 reason okss) reason edits with
              stderr := (applyPEdits (applyOks (checkpointF s).1 reason okss) reason edits).stderr
                ++ [bugLine msg] }
              (checkpointF s).2).st⟩ := by
      rw [replace_all_validate_eq, hloop, ravLoop_err_step, if_neg hmne, if_neg hc12ne,
        revertRaise_ok _ _ _ r1]
    rw [heq]
    refine ⟨rfl, ?_, ?_⟩
    · intro p
      show (revert _ _).st.edges p = s.edges p
      rw [r2]
      show undoAll l2
        (applyPEdits (applyOks (checkpointF s).1 reason okss) reason edits).edges p
          = s.edges p
      rw [hundo]
    · show (revert _ _).st.stderr = s.stderr ++ [bugLine msg]
      rw [r5]
      show (applyPEdits (applyOks (checkpointF s).1 reason okss) reason edits).stderr
        ++ [bugLine msg] = s.stderr ++ [bugLine msg]
      rw [hmidstderr]

/-- A validation oracle that always passes. -/
def voNoneW : (EKey → Nat) → Option String := fun _ => none

/-- A concrete message matching none of the three classified substrings. -/
def unexpectedMsgW : String := "KeyError: node not found"

/-- Witness for claim C3: the three classification branches at concrete
messages — the depth message leaves the partially rewritten edge in place,
the recoverable message reverts it, and the unexpected message logs the bug
line. -/
theorem rav_error_classification_witness :
    (strContains msg_s3 msg_s3 = true ∧
      (replace_all_validate sInit
        (List.map ReplOutcome.ok [] ++ [ReplOutcome.err [⟨0, 0, 5⟩] msg_s3])
        (Reason.user "o") voNoneW).st.edges (0, 0) = 5) ∧
    (strContains msg_s3 msg_s1 = false ∧
     (strContains msg_s1 msg_s1 || strContains msg_s2 msg_s1) = true ∧
      (replace_all_validate sInit
        (List.map ReplOutcome.ok [] ++ [ReplOutcome.err [⟨0, 0, 5⟩] msg_s1])
        (Reason.user "o") voNoneW).st.edges (0, 0) = sInit.edges (0, 0)) ∧
    (strContains msg_s3 unexpectedMsgW = false ∧
     (strContains msg_s1 unexpectedMsgW || strContains msg_s2 unexpectedMsgW) = false ∧
      (replace_all_validate sInit
        (List.map ReplOutcome.ok [] ++ [ReplOutcome.err [⟨0, 0, 5⟩] unexpectedMsgW])
        (Reason.user "o") voNoneW).st.stderr = sInit.stderr ++ [bugLine unexpectedMsgW]) := by
  have t1 := (rav_error_classification sInit (Reason.user "o") voNoneW []
    [⟨0, 0, 5⟩] msg_s3 []).1 (by decide)
  have t2 := ((rav_error_classification sInit (Reason.user "o") voNoneW []
    [⟨0, 0, 5⟩] msg_s1 []).2.1 (by decide) (by decide)).2.1 (0, 0)
  have t3 := ((rav_error_classification sInit (Reason.user "o") voNoneW []
    [⟨0, 0, 5⟩] unexpectedMsgW []).2.2 (by decide) (by decide)).2.2
  refine ⟨⟨by decide, ?_⟩, ⟨by decide, by decide, t2⟩, ⟨by decide, by decide, t3⟩⟩
  rw [t1]
  rfl

-- ### Claim C4: the removal contract

/-- `revertRaise` always raises. -/
theorem revertRaise_raised_isSome (s : HState) (chk : Nat) (e : PyErr) :
    (revertRaise s chk e).raised.isSome = true := by
  rw [revertRaise.eq_def]
  by_cases h : (revert s chk).assertOk = true <;> simp [h]

/-- The exception surfaced by `revertRaise` is the original one or the revert
AssertionError. -/
theorem revertRaise_raised_cases (s : HState) (chk : Nat) (e e2 : PyErr)
    (h : (revertRaise s chk e).raised = some e2) :
    e2 = e ∨ e2.kind = ErrKind.assertionFailed := by
  rw [revertRaise.eq_def] at h
  by_cases ha : (revert s chk).assertOk = true
  · rw [if_pos ha] at h
    exact Or.inl (Option.some.inj h).symm
  · rw [if_neg ha] at h
    have : e2 = ⟨ErrKind.assertionFailed, "fgraph.checkpoint.nb == checkpoint", []⟩ :=
      (Option.some.inj h).symm
    rw [this]
    exact Or.inr rfl

/-- On successful return of `replace_all_validate`, the final state carries a
log that replays exactly to the pre-call topology, the counter equals the
returned checkpoint handle, and the book-keeping fields went through. -/
theorem rav_success_spec (s : HState) (behs : List ReplOutcome) (reason : Reason)
    (vo : (EKey → Nat) → Option String)
    (h : (replace_all_validate s behs reason vo).raised = none) :
    ∃ l1, (replace_all_validate s behs reason vo).st.history = some l1 ∧
      (replace_all_validate s behs reason vo).st.nb
        = (replace_all_validate s behs reason vo).chk ∧
      undoAll l1 (replace_all_validate s behs reason vo).st.edges = s.edges ∧
      (replace_all_validate s behs reason vo).st.stderr = s.stderr := by
  have hs0h : (checkpointF s).1.history = some [] := rfl
  have hs0nb : (checkpointF s).1.nb = (checkpointF s).2 := rfl
  rcases ravLoop_cases reason (checkpointF s).2 behs (checkpointF s).1 [] hs0h hs0nb with
    ⟨s1, l1, hr, g1, g2, g3, _, g5, _⟩ | ⟨out, msg, hr, _, gcase⟩
  · have heq : replace_all_validate s behs reason vo
        = (match fg_validate vo s1 with
           | (s2, none) => ⟨none, (checkpointF s).2, s2⟩
           | (s2, some e2) => revertRaise s2 (checkpointF s).2 e2) := by
      rw [replace_all_validate_eq, hr]
    obtain ⟨v1, v2, v3, v4, _⟩ := fg_validate_fields vo s1
    rcases hfv : fg_validate vo s1 with ⟨s2, rv⟩
    cases rv with
    | some e2 =>
        rw [heq, hfv] at h
        have := revertRaise_raised_isSome s2 (checkpointF s).2 e2
        rw [show (revertRaise s2 (checkpointF s).2 e2).raised
              = (RAVROut.mk (revertRaise s2 (checkpointF s).2 e2).raised
                  (revertRaise s2 (checkpointF s).2 e2).st).raised from rfl] at this
        rw [h] at this
        exact absurd this (by simp)
    | none =>
        rw [hfv] at v1 v2 v3 v4
        have heq2 : replace_all_validate s behs reason vo
            = ⟨none, (checkpointF s).2, s2⟩ := by
          rw [heq, hfv]
        refine ⟨l1, ?_, ?_, ?_, ?_⟩
        · rw [heq2]
          exact v2.trans g1
        · rw [heq2]
          show s2.nb = (checkpointF s).2
          exact v3.trans g2
        · rw [heq2]
          show undoAll l1 s2.edges = s.edges
          rw [v1, g3]
          rfl
        · rw [heq2]
          show s2.stderr = s.stderr
          rw [v4, g5]
          rfl
  · have heq : replace_all_validate s behs reason vo = out := by
      rw [replace_all_validate_eq, hr]
    rw [heq] at h
    rcases gcase with ⟨_, hrr⟩ | ⟨_, hrr, _, _⟩ <;> rw [hrr] at h <;>
      exact absurd h (by simp)

/-- Every exception surfaced by `replace_all_validate` itself is the generic
rewrite error, an Inconsistency from validation, or the revert
AssertionError — never the ReplacementDidntRemovedError. -/
theorem rav_raised_kind (s : HState) (behs : List ReplOutcome) (reason : Reason)
    (vo : (EKey → Nat) → Option String) (e : PyErr)
    (h : (replace_all_validate s behs reason vo).raised = some e) :
    e.kind = ErrKind.generic ∨ e.kind = ErrKind.inconsistency ∨
      e.kind = ErrKind.assertionFailed := by
  have hs0h : (checkpointF s).1.history = some [] := rfl
  have hs0nb : (checkpointF s).1.nb = (checkpointF s).2 := rfl
  rcases ravLoop_cases reason (checkpointF s).2 behs (checkpointF s).1 [] hs0h hs0nb with
    ⟨s1, l1, hr, _, _, _, _, _, _⟩ | ⟨out, msg, hr, _, gcase⟩
  · have heq : replace_all_validate s behs reason vo
        = (match fg_validate vo s1 with
           | (s2, none) => ⟨none, (checkpointF s).2, s2⟩
           | (s2, some e2) => revertRaise s2 (checkpointF s).2 e2) := by
      rw [replace_all_validate_eq, hr]
    rcases hfv : fg_validate vo s1 with ⟨s2, rv⟩
    cases rv with
    | none =>
        rw [heq, hfv] at h
        exact absurd h (by simp)
    | some e2 =>
        rw [heq, hfv] at h
        rcases revertRaise_raised_cases s2 (checkpointF s).2 e2 e h with he | he
        · obtain ⟨k1, _⟩ := fg_validate_err_kind vo s1 e2 (by rw [hfv])
          rw [he, k1]
          exact Or.inr (Or.inl rfl)
        · exact Or.inr (Or.inr he)
  · have heq : replace_all_validate s behs reason vo = out := by
      rw [replace_all_validate_eq, hr]
    rw [heq] at h
    rcases gcase with ⟨_, hrr⟩ | ⟨_, hrr, _, _⟩ <;> rw [hrr] at h
    · rw [← Option.some.inj h]
      exact Or.inl rfl
    · rw [← Option.some.inj h]
      exact Or.inl rfl

/-- Claim C4: on successful return of `replace_all_validate_remove` no node of
the must-be-removed set is still present in the graph; if some such node is
still present after the inner transaction succeeded, the graph is reverted to
the checkpoint taken by the inner call (the edge topology equals the pre-call
one), the warning is emitted exactly when `warn` is set, and the
ReplacementDidntRemovedError is raised; and the inner `replace_all_validate`
itself never raises that error (it is raised only by this operation, always
after the revert). -/
theorem replace_all_validate_remove_contract (s : HState) (behs : List ReplOutcome)
    (remove : List Nat) (reason : Reason) (vo : (EKey → Nat) → Option String)
    (present : (EKey → Nat) → Nat → Bool) (warn : Bool) :
    ((replace_all_validate_remove s behs remove reason vo present warn).raised = none →
      ∀ rm ∈ remove,
        present (replace_all_validate_remove s behs remove reason vo present warn).st.edges rm
          = false) ∧
    ((replace_all_validate s behs reason vo).raised = none →
     (∃ rm, rm ∈ remove ∧
        present (replace_all_validate s behs reason vo).st.edges rm = true) →
      (replace_all_validate_remove s behs remove reason vo present warn).raised
        = some ⟨ErrKind.replacementDidntRemoved, "", []⟩ ∧
      (∀ p, (replace_all_validate_remove s behs remove reason vo present warn).st.edges p
              = s.edges p) ∧
      (warn = true →
        (replace_all_validate_remove s behs remove reason vo present warn).st.stderr
          = s.stderr ++ [removeWarning])) ∧
    (∀ e, (replace_all_validate s behs reason vo).raised = some e →
      e.kind ≠ ErrKind.replacementDidntRemoved) := by
  refine ⟨?_, ?_, ?_⟩
  · -- success: every must-be-removed node absent
    intro hres rm hmem
    rcases hr : (replace_all_validate s behs reason vo).raised with _ | e
    · rcases hf : remove.find?
          (fun rm => present (withRemoved (replace_all_validate s behs reason vo).st remove).edges rm)
        with _ | rm0
      · have heq : replace_all_validate_remove s behs remove reason vo present warn
            = ⟨none, withRemoved (replace_all_validate s behs reason vo).st remove⟩ := by
          rw [replace_all_validate_remove, ravRemoveCheck.eq_def, hr, hf]
        rw [heq]
        have := List.find?_eq_none.mp hf rm hmem
        show present (withRemoved (replace_all_validate s behs reason vo).st remove).edges rm
          = false
        cases hval : present (withRemoved (replace_all_validate s behs reason vo).st remove).edges rm
        · rfl
        · exact absurd hval this
      · -- a node is still present: the call raises, contradicting success
        exfalso
        have heq : replace_all_validate_remove s behs remove reason vo present warn
            = (if (revert (withRemoved (replace_all_validate s behs reason vo).st remove)
                    (replace_all_validate s behs reason vo).chk).assertOk then
                 if warn then
                   ⟨some ⟨ErrKind.replacementDidntRemoved, "", []⟩,
                     { (revert (withRemoved (replace_all_validate s behs reason vo).st remove)
                         (replace_all_validate s behs reason vo).chk).st with
                       stderr := (revert (withRemoved (replace_all_validate s behs reason vo).st remove)
                         (replace_all_validate s behs reason vo).chk).st.stderr ++ [removeWarning] }⟩
                 else
                   ⟨some ⟨ErrKind.replacementDidntRemoved, "", []⟩,
                     (revert (withRemoved (replace_all_validate s behs reason vo).st remove)
                       (replace_all_validate s behs reason vo).chk).st⟩
               else
                 ⟨some ⟨ErrKind.assertionFailed, "fgraph.checkpoint.nb == checkpoint", []⟩,
                   (revert (withRemoved (replace_all_validate s behs reason vo).st remove)
                     (replace_all_validate s behs reason vo).chk).st⟩) := by
          rw [replace_all_validate_remove, ravRemoveCheck.eq_def, hr, hf]
        rw [heq] at hres
        by_cases ha : (revert (withRemoved (replace_all_validate s behs reason vo).st remove)
            (replace_all_validate s behs reason vo).chk).assertOk = true
        · rw [if_pos ha] at hres
          by_cases hw : warn = true
          · rw [if_pos hw] at hres
            exact Option.noConfusion hres
          · rw [if_neg hw] at hres
            exact Option.noConfusion hres
        · rw [if_neg ha] at hres
          exact Option.noConfusion hres
    · have heq : replace_all_validate_remove s behs remove reason vo present warn
          = ⟨some e, (replace_all_validate s behs reason vo).st⟩ := by
        rw [replace_all_validate_remove, ravRemoveCheck.eq_def, hr]
      rw [heq] at hres
      exact Option.noConfusion hres
  · -- failure: revert, warn, raise ReplacementDidntRemovedError
    intro hr hex
    obtain ⟨l1, g1, g2, g3, g4⟩ := rav_success_spec s behs reason vo hr
    have hw1 : (withRemoved (replace_all_validate s behs reason vo).st remove).history
        = some l1 := g1
    have hw2 : (withRemoved (replace_all_validate s behs reason vo).st remove).nb
        = (replace_all_validate s behs reason vo).chk := g2
    obtain ⟨r1, r2, r3, _, r5, _⟩ :=
      revert_ok (withRemoved (replace_all_validate s behs reason vo).st remove)
        l1 (replace_all_validate s behs reason vo).chk hw1 hw2
    have hfs : (remove.find?
        (fun rm => present (withRemoved (replace_all_validate s behs reason vo).st remove).edges rm)).isSome
        = true := by
      rw [List.find?_isSome]
      obtain ⟨rm0, hm0, hp0⟩ := hex
      exact ⟨rm0, hm0, hp0⟩
    obtain ⟨rm0, hf⟩ := Option.isSome_iff_exists.mp hfs
    have heq : replace_all_validate_remove s behs remove reason vo present warn
        = (if warn then
             ⟨some ⟨ErrKind.replacementDidntRemoved, "", []⟩,
               { (revert (withRemoved (replace_all_validate s behs reason vo).st remove)
                   (replace_all_validate s behs reason vo).chk).st with
                 stderr := (revert (withRemoved (replace_all_validate s behs reason vo).st remove)
                   (replace_all_validate s behs reason vo).chk).st.stderr ++ [removeWarning] }⟩
           else
             ⟨some ⟨ErrKind.replacementDidntRemoved, "", []⟩,
               (revert (withRemoved (replace_all_validate s behs reason vo).st remove)
                 (replace_all_validate s behs reason vo).chk).st⟩) := by
      rw [replace_all_validate_remove, ravRemoveCheck.eq_def, hr, hf, if_pos r1]
    have hedge : ∀ p,
        (revert (withRemoved (replace_all_validate s behs reason vo).st remove)
          (replace_all_validate s behs reason vo).chk).st.edges p = s.edges p := by
      intro p
      rw [r2]
      show undoAll l1 (replace_all_validate s behs reason vo).st.edges p = s.edges p
      rw [g3]
    by_cases hwv : warn = true
    · rw [heq, if_pos hwv]
      refine ⟨rfl, hedge, fun _ => ?_⟩
      show (revert (withRemoved (replace_all_validate s behs reason vo).st remove)
          (replace_all_validate s behs reason vo).chk).st.stderr ++ [removeWarning]
        = s.stderr ++ [removeWarning]
      rw [r5]
      show (replace_all_validate s behs reason vo).st.stderr ++ [removeWarning]
        = s.stderr ++ [removeWarning]
      rw [g4]
    · rw [heq, if_neg hwv]
      exact ⟨rfl, hedge, fun hcon => absurd hcon hwv⟩
  · -- the inner transaction never raises ReplacementDidntRemovedError
    intro e he
    rcases rav_raised_kind s behs reason vo e he with hk | hk | hk <;>
      rw [hk] <;> intro hcon <;> exact ErrKind.noConfusion hcon

/-- A concrete presence oracle: only node 5 counts as present. -/
def presentW : (EKey → Nat) → Nat → Bool := fun _ rm => rm == 5

/-- Witness for claim C4: a successful removal (node 7 absent), a failed
removal (node 5 still present: revert, warning, ReplacementDidntRemovedError),
and the inner error kind check at a concrete raised error. -/
theorem replace_all_validate_remove_contract_witness :
    ((replace_all_validate_remove sInit [ReplOutcome.ok [⟨0, 0, 9⟩]] [7]
        (Reason.user "o") voNoneW presentW true).raised = none ∧
      presentW (replace_all_validate_remove sInit [ReplOutcome.ok [⟨0, 0, 9⟩]] [7]
        (Reason.user "o") voNoneW presentW true).st.edges 7 = false) ∧
    ((replace_all_validate_remove sInit [ReplOutcome.ok [⟨0, 0, 9⟩]] [5]
        (Reason.user "o") voNoneW presentW true).raised
          = some ⟨ErrKind.replacementDidntRemoved, "", []⟩ ∧
      (replace_all_validate_remove sInit [ReplOutcome.ok [⟨0, 0, 9⟩]] [5]
        (Reason.user "o") voNoneW presentW true).st.edges (0, 0) = sInit.edges (0, 0) ∧
      (replace_all_validate_remove sInit [ReplOutcome.ok [⟨0, 0, 9⟩]] [5]
        (Reason.user "o") voNoneW presentW true).st.stderr
          = sInit.stderr ++ [removeWarning]) ∧
    (PyErr.mk ErrKind.generic msg_s1 []).kind ≠ ErrKind.replacementDidntRemoved := by
  have h1 := (replace_all_validate_remove_contract sInit [ReplOutcome.ok [⟨0, 0, 9⟩]]
    [7] (Reason.user "o") voNoneW presentW true).1 rfl 7 (by simp)
  have hr2 : (replace_all_validate sInit [ReplOutcome.ok [⟨0, 0, 9⟩]]
      (Reason.user "o") voNoneW).raised = none := rfl
  have h2 := (replace_all_validate_remove_contract sInit [ReplOutcome.ok [⟨0, 0, 9⟩]]
    [5] (Reason.user "o") voNoneW presentW true).2.1 hr2 ⟨5, by simp, rfl⟩
  have hr3 : (replace_all_validate sInit [ReplOutcome.err [] msg_s1]
      (Reason.user "o") voNoneW).raised = some ⟨ErrKind.generic, msg_s1, []⟩ := rfl
  have h3 := (replace_all_validate_remove_contract sInit [ReplOutcome.err [] msg_s1]
    [5] (Reason.user "o") voNoneW presentW true).2.2
    ⟨ErrKind.generic, msg_s1, []⟩ hr3
  exact ⟨⟨rfl, h1⟩, ⟨h2.1, h2.2.1 (0, 0), h2.2.2 rfl⟩, h3⟩

-- ### Claims C6 and C10: reintroduction detection and the self-clearing flag

/-- Claim C6: importing a node previously recorded in the removed-node set
arms `fail_validate`, and the next `validate()` call raises the
InconsistencyError citing reintroduction of a removed node — even though
the import itself went through (the state is otherwise untouched). -/
theorem reintroduction_detection (s : HState) (node : Nat)
    (vo : (EKey → Nat) → Option String) (h : node ∈ s.nodes_removed) :
    (rv_on_import s node).fail_validate = true ∧
    (rv_on_import s node).edges = s.edges ∧
    (fg_validate vo (rv_on_import s node)).2
      = some ⟨ErrKind.inconsistency, reintroduceMsg, []⟩ := by
  have himp : rv_on_import s node = { s with fail_validate := true } := by
    rw [rv_on_import, if_pos h]
  rw [himp]
  refine ⟨rfl, rfl, ?_⟩
  show (fg_validate vo { s with fail_validate := true }).2
    = some ⟨ErrKind.inconsistency, reintroduceMsg, []⟩
  rw [fg_validate.eq_def, rv_validate_step.eq_def]
  simp

/-- Witness for claim C6: node 3 recorded as removed, imported again. -/
theorem reintroduction_detection_witness :
    (3 ∈ ([3] : List Nat)) ∧
    (rv_on_import { sInit with nodes_removed := [3] } 3).fail_validate = true ∧
    (fg_validate voNoneW (rv_on_import { sInit with nodes_removed := [3] } 3)).2
      = some ⟨ErrKind.inconsistency, reintroduceMsg, []⟩ := by
  obtain ⟨a1, _, a3⟩ :=
    reintroduction_detection { sInit with nodes_removed := [3] } 3 voNoneW (by simp)
  exact ⟨by simp, a1, a3⟩

/-- Claim C10: the `validate` contribution of the transactional component
clears `fail_validate` before raising, so exactly one `validate()` call fails
after a reintroduction: the failing call resets the flag, the removed-node
record is untouched, and an immediately subsequent `validate()` passes the
component own check (its outcome is that of the external checks alone). -/
theorem fail_validate_self_clearing (s : HState)
    (vo : (EKey → Nat) → Option String) (h : s.fail_validate = true) :
    (fg_validate vo s).2 = some ⟨ErrKind.inconsistency, reintroduceMsg, []⟩ ∧
    (fg_validate vo s).1.fail_validate = false ∧
    (fg_validate vo s).1.nodes_removed = s.nodes_removed ∧
    (rv_validate_step (fg_validate vo s).1).2 = none ∧
    (vo ((fg_validate vo s).1.edges) = none →
      (fg_validate vo ((fg_validate vo s).1)).2 = none) := by
  have hstep : fg_validate vo s
      = ({ s with fail_validate := false },
         some ⟨ErrKind.inconsistency, reintroduceMsg, []⟩) := by
    rw [fg_validate.eq_def, rv_validate_step.eq_def]
    simp [h]
  rw [hstep]
  refine ⟨rfl, rfl, rfl, ?_, ?_⟩
  · show (rv_validate_step { s with fail_validate := false }).2 = none
    rw [rv_validate_step.eq_def]
    simp
  · intro hvo
    show (fg_validate vo { s with fail_validate := false }).2 = none
    rw [fg_validate.eq_def, rv_validate_step.eq_def]
    simp only [if_neg (by simp : ¬ ({ s with fail_validate := false } : HState).fail_validate = true)]
    have : vo ({ s with fail_validate := false } : HState).edges = none := hvo
    simp [this]

/-- Witness for claim C10: a state with the flag armed; the first validate
raises and clears the flag, the second passes. -/
theorem fail_validate_self_clearing_witness :
    (({ sInit with fail_validate := true } : HState).fail_validate = true) ∧
    (fg_validate voNoneW { sInit with fail_validate := true }).2
      = some ⟨ErrKind.inconsistency, reintroduceMsg, []⟩ ∧
    (fg_validate voNoneW ((fg_validate voNoneW { sInit with fail_validate := true }).1)).2
      = none := by
  obtain ⟨a1, _, _, _, a5⟩ :=
    fail_validate_self_clearing { sInit with fail_validate := true } voNoneW rfl
  exact ⟨rfl, a1, a5 rfl⟩

-- ### Claim C5: attach aborted by AlreadyThere

/-- The graph-side state relevant to `on_attach`: the names of the entry
points dynamically injected on the fgraph object, whether `self.history` has
an entry for this fgraph (the per-graph state of the History observer), and
whether the NodeFinder instance is already bound to a graph. -/
structure AttachCtx : Type where
  attrs : List String
  hist_has_fg : Bool
  nf_fgraph_set : Bool
deriving DecidableEq, Repr

/-- `hasattr(fgraph, n)`. -/
def hasAttr (c : AttachCtx) (n : String) : Bool := c.attrs.contains n

/-- `setattr(fgraph, n, ...)` (only the name matters for this model). -/
def setAttr (c : AttachCtx) (n : String) : AttachCtx :=
  if c.attrs.contains n then c else { c with attrs := c.attrs ++ [n] }

/-- `History.on_attach`: raise AlreadyThere if `checkpoint` or `revert` is
already injected; otherwise create the per-graph history entry and inject
`checkpoint` and `revert`.  The first component is `false` when AlreadyThere
was raised, and the second is the state at that point. -/
def history_on_attach (c : AttachCtx) : Bool × AttachCtx :=
  if hasAttr c "checkpoint" || hasAttr c "revert" then (false, c)
  else (true, setAttr (setAttr { c with hist_has_fg := true } "checkpoint") "revert")

/-- `Validator.on_attach`: raise AlreadyThere if `validate` or `validate_time`
exists; otherwise inject `validate` and `consistent`. -/
def validator_on_attach (c : AttachCtx) : Bool × AttachCtx :=
  if hasAttr c "validate" || hasAttr c "validate_time" then (false, c)
  else (true, setAttr (setAttr c "validate") "consistent")

/-- `History.unpickle`: re-inject `checkpoint` and `revert`. -/
def history_unpickle (c : AttachCtx) : AttachCtx :=
  setAttr (setAttr c "checkpoint") "revert"

/-- `Validator.unpickle`: re-inject `validate` and `consistent`. -/
def validator_unpickle (c : AttachCtx) : AttachCtx :=
  setAttr (setAttr c "validate") "consistent"

/-- `ReplaceValidate.unpickle`: the History and Validator entry points plus
the three replace entry points. -/
def replace_validate_unpickle (c : AttachCtx) : AttachCtx :=
  setAttr (setAttr (setAttr (validator_unpickle (history_unpickle c))
    "replace_validate") "replace_all_validate") "replace_all_validate_remove"

/-- `ReplaceValidate.on_attach`: check its own three entry points, then run
`History.on_attach`, then `Validator.on_attach`, then inject everything via
unpickle.  An AlreadyThere raised by a sub-attach propagates with whatever
the earlier sub-attaches already injected left in place. -/
def replace_validate_on_attach (c : AttachCtx) : Bool × AttachCtx :=
  if hasAttr c "replace_validate" || hasAttr c "replace_all_validate" ||
     hasAttr c "replace_all_validate_remove" then (false, c)
  else
    match history_on_attach c with
    | (false, c1) => (false, c1)
    | (true, c1) =>
        match validator_on_attach c1 with
        | (false, c2) => (false, c2)
        | (true, c2) => (true, replace_validate_unpickle c2)

/-- `NodeFinder.on_attach` (attribute part): a NodeFinder bound to another
graph raises (a generic Exception) before touching anything; an existing
`get_nodes` raises AlreadyThere before touching anything; otherwise bind the
instance and inject `get_nodes`. -/
def nodefinder_on_attach (c : AttachCtx) : Bool × AttachCtx :=
  if c.nf_fgraph_set then (false, c)
  else if hasAttr c "get_nodes" then (false, c)
  else (true, setAttr { c with nf_fgraph_set := true } "get_nodes")

/-- Claim C5 (amended): an attach aborted by AlreadyThere leaves the graph
object unmodified for the History, Validator and NodeFinder observers, and
for the composite ReplaceValidate when the conflict is one of its own three
entry points or one of the Change Log entry points (`checkpoint`/`revert`).
When only the Validator entry points conflict, however, the composite attach
is NOT a no-op: the counterexample theorem shows it leaves `checkpoint` and
`revert` injected and the per-graph history entry behind. -/
theorem already_there_attach_noop (c : AttachCtx) :
    ((history_on_attach c).1 = false → (history_on_attach c).2 = c) ∧
    ((validator_on_attach c).1 = false → (validator_on_attach c).2 = c) ∧
    ((nodefinder_on_attach c).1 = false → (nodefinder_on_attach c).2 = c) ∧
    ((hasAttr c "replace_validate" || hasAttr c "replace_all_validate" ||
      hasAttr c "replace_all_validate_remove") = true →
        (replace_validate_on_attach c).1 = false ∧
        (replace_validate_on_attach c).2 = c) ∧
    ((hasAttr c "checkpoint" || hasAttr c "revert") = true →
        (replace_validate_on_attach c).1 = false ∧
        (replace_validate_on_attach c).2 = c) := by
  refine ⟨?_, ?_, ?_, ?_, ?_⟩
  · intro h
    rw [history_on_attach.eq_def] at h ⊢
    by_cases hc : (hasAttr c "checkpoint" || hasAttr c "revert") = true
    · rw [if_pos hc]
    · rw [if_neg hc] at h
      exact absurd h (by simp)
  · intro h
    rw [validator_on_attach.eq_def] at h ⊢
    by_cases hc : (hasAttr c "validate" || hasAttr c "validate_time") = true
    · rw [if_pos hc]
    · rw [if_neg hc] at h
      exact absurd h (by simp)
  · intro h
    rw [nodefinder_on_attach.eq_def] at h ⊢
    by_cases hc : c.nf_fgraph_set = true
    · rw [if_pos hc]
    · rw [if_neg hc] at h ⊢
      by_cases hg : hasAttr c "get_nodes" = true
      · rw [if_pos hg]
      · rw [if_neg hg] at h
        exact absurd h (by simp)
  · intro h
    rw [replace_validate_on_attach.eq_def, if_pos h]
    exact ⟨rfl, rfl⟩
  · intro h
    rw [replace_validate_on_attach.eq_def]
    by_cases hown : (hasAttr c "replace_validate" || hasAttr c "replace_all_validate" ||
        hasAttr c "replace_all_validate_remove") = true
    · rw [if_pos hown]
      exact ⟨rfl, rfl⟩
    · rw [if_neg hown]
      have hhist : history_on_attach c = (false, c) := by
        rw [history_on_attach.eq_def, if_pos h]
      rw [hhist]
      exact ⟨rfl, rfl⟩

/-- The C5 counterexample context: a graph that already carries a `validate`
entry point (e.g. a standalone Validator attached earlier) and nothing else. -/
def c5cex : AttachCtx := ⟨["validate"], false, false⟩

/-- Claim C5 counterexample: attaching the composite ReplaceValidate to a
graph that already has only a `validate` entry point raises AlreadyThere (the
Validator conflict), but the graph is NOT left unmodified — the Change Log
sub-attach has already injected `checkpoint` and `revert` and created the
per-graph history entry. -/
theorem replace_validate_attach_not_noop :
    (replace_validate_on_attach c5cex).1 = false ∧
    (replace_validate_on_attach c5cex).2 ≠ c5cex ∧
    (replace_validate_on_attach c5cex).2.attrs = ["validate", "checkpoint", "revert"] ∧
    (replace_validate_on_attach c5cex).2.hist_has_fg = true := by
  refine ⟨rfl, ?_, rfl, rfl⟩
  intro hcon
  have : (replace_validate_on_attach c5cex).2.attrs = c5cex.attrs := by rw [hcon]
  rw [show (replace_validate_on_attach c5cex).2.attrs
      = ["validate", "checkpoint", "revert"] from rfl] at this
  simp [c5cex] at this

/-- Witness for claim C5 (amended): each no-op implication discharged at a
concrete conflicting context. -/
theorem already_there_attach_noop_witness :
    ((history_on_attach ⟨["checkpoint"], false, false⟩).1 = false ∧
      (history_on_attach ⟨["checkpoint"], false, false⟩).2
        = ⟨["checkpoint"], false, false⟩) ∧
    ((validator_on_attach ⟨["validate"], false, false⟩).1 = false ∧
      (validator_on_attach ⟨["validate"], false, false⟩).2
        = ⟨["validate"], false, false⟩) ∧
    ((nodefinder_on_attach ⟨["get_nodes"], false, false⟩).1 = false ∧
      (nodefinder_on_attach ⟨["get_nodes"], false, false⟩).2
        = ⟨["get_nodes"], false, false⟩) ∧
    ((replace_validate_on_attach ⟨["replace_validate"], false, false⟩).2
        = ⟨["replace_validate"], false, false⟩) ∧
    ((replace_validate_on_attach ⟨["revert"], false, false⟩).2
        = ⟨["revert"], false, false⟩) := by
  obtain ⟨a1, _, _, _, _⟩ := already_there_attach_noop ⟨["checkpoint"], false, false⟩
  obtain ⟨_, a2, _, _, _⟩ := already_there_attach_noop ⟨["validate"], false, false⟩
  obtain ⟨_, _, a3, _, _⟩ := already_there_attach_noop ⟨["get_nodes"], false, false⟩
  obtain ⟨_, _, _, a4, _⟩ := already_there_attach_noop ⟨["replace_validate"], false, false⟩
  obtain ⟨_, _, _, _, a5⟩ := already_there_attach_noop ⟨["revert"], false, false⟩
  exact ⟨⟨rfl, a1 rfl⟩, ⟨rfl, a2 rfl⟩, ⟨rfl, a3 rfl⟩,
    (a4 (by decide)).2, (a5 (by decide)).2⟩

-- ### Claim C7: the NodeFinder index

/-- An operation identity: `hashable = false` models an op whose hash raises
TypeError. -/
structure Op : Type where
  oid : Nat
  hashable : Bool
deriving DecidableEq, Repr

/-- An apply node, carrying its operation. -/
structure GNode : Type where
  nid : Nat
  op : Op
deriving DecidableEq, Repr

/-- The `self.d` dictionary of NodeFinder, as an association list. -/
abbrev NFIndex : Type := List (Op × List GNode)

/-- Dictionary lookup `self.d.get(op)`. -/
def nfLookup (d : NFIndex) (op : Op) : Option (List GNode) :=
  (d.find? (fun kv => kv.1 == op)).map (fun kv => kv.2)

/-- Overwrite the bucket of `op` (in-place mutation of the dict value). -/
def nfSet (d : NFIndex) (op : Op) (ns : List GNode) : NFIndex :=
  d.map (fun kv => if kv.1 == op then (kv.1, ns) else kv)

/-- `del self.d[op]`. -/
def nfDelete (d : NFIndex) (op : Op) : NFIndex :=
  d.filter (fun kv => !(kv.1 == op))

/-- `NodeFinder.on_import`: `self.d.setdefault(node.op, []).append(node)`;
a TypeError from hashing (unhashable op) is swallowed, silently skipping
indexing. -/
def nf_on_import (d : NFIndex) (node : GNode) : NFIndex :=
  if node.op.hashable = false then d
  else
    match nfLookup d node.op with
    | some ns => nfSet d node.op (ns ++ [node])
    | none => d ++ [(node.op, [node])]

/-- `NodeFinder.on_prune`: TypeError (unhashable op) silently returns; a
missing key (KeyError) or a node missing from its bucket (ValueError from
`list.remove`) propagates (`none`); otherwise the node is removed from the
bucket and the bucket deleted once empty. -/
def nf_on_prune (d : NFIndex) (node : GNode) : Option NFIndex :=
  if node.op.hashable = false then some d
  else
    match nfLookup d node.op with
    | none => none
    | some ns =>
        if node ∈ ns then
          if (ns.erase node).isEmpty then some (nfDelete d node.op)
          else some (nfSet d node.op (ns.erase node))
        else none

/-- `NodeFinder.query`: a TypeError-class condition for a fundamentally
unhashable op; otherwise an independent copy of the current bucket, or the
empty list. -/
def nf_query (d : NFIndex) (op : Op) : Except String (List GNode) :=
  if op.hashable = false then
    Except.error "unhashable and cannot be queried by the optimizer"
  else Except.ok ((nfLookup d op).getD [])

theorem nfLookup_set_self (d : NFIndex) (op : Op) (ns : List GNode) :
    nfLookup (nfSet d op ns) op = (nfLookup d op).map (fun _ => ns) := by
  induction d with
  | nil => rfl
  | cons kv rest ih =>
      by_cases h : kv.1 = op
      · have hb : (kv.1 == op) = true := by
          rw [h]
          exact beq_self_eq_true op
        simp [nfLookup, nfSet, List.find?, hb]
      · have hb : (kv.1 == op) = false := by
          cases hval : kv.1 == op
          · rfl
          · exact absurd (eq_of_beq hval) h
        simp only [nfLookup, nfSet, List.map_cons, List.find?, hb]
        simpa [nfLookup, nfSet, hb] using ih

theorem nfLookup_append_single (d : NFIndex) (op : Op) (ns : List GNode) :
    nfLookup (d ++ [(op, ns)]) op = some ((nfLookup d op).getD ns) := by
  induction d with
  | nil => simp [nfLookup, List.find?]
  | cons kv rest ih =>
      by_cases h : kv.1 = op
      · have hb : (kv.1 == op) = true := by
          rw [h]
          exact beq_self_eq_true op
        simp [nfLookup, List.find?, hb]
      · have hb : (kv.1 == op) = false := by
          cases hval : kv.1 == op
          · rfl
          · exact absurd (eq_of_beq hval) h
        simp only [nfLookup, List.cons_append, List.find?, hb]
        simpa [nfLookup, hb] using ih

theorem nfLookup_delete (d : NFIndex) (op : Op) :
    nfLookup (nfDelete d op) op = none := by
  induction d with
  | nil => rfl
  | cons kv rest ih =>
      by_cases h : kv.1 = op
      · have hb : (kv.1 == op) = true := by
          rw [h]
          exact beq_self_eq_true op
        simpa [nfDelete, hb] using ih
      · have hb : (kv.1 == op) = false := by
          cases hval : kv.1 == op
          · rfl
          · exact absurd (eq_of_beq hval) h
        simp only [nfDelete, List.filter, hb]
        simp only [Bool.not_false, if_pos]
        simp only [nfLookup, List.find?, hb]
        simp only [nfDelete, nfLookup] at ih
        exact ih

/-- Claim C7: for a hashable operation, a node imported and later pruned is
excluded from `query`, and its bucket is deleted entirely once empty (the
lookup for that operation becomes `none` exactly when the bucket was
otherwise empty); `query` of a hashable operation returns a copy of the
current bucket or the empty list (snapshot stability is automatic in this
pure model, where the returned list is an independent value); nodes with an
unhashable operation are silently excluded at import (and prune), and
querying an unhashable operation fails with the TypeError condition. -/
theorem node_finder_correct (d : NFIndex) (node : GNode) (op : Op) :
    (node.op.hashable = true →
     node ∉ (nfLookup d node.op).getD [] →
      (nf_on_prune (nf_on_import d node) node).isSome = true ∧
      nfLookup ((nf_on_prune (nf_on_import d node) node).getD []) node.op
        = (if ((nfLookup d node.op).getD []).isEmpty then none
           else nfLookup d node.op) ∧
      node ∉ (nfLookup ((nf_on_prune (nf_on_import d node) node).getD []) node.op).getD []) ∧
    (op.hashable = true → nf_query d op = Except.ok ((nfLookup d op).getD [])) ∧
    (node.op.hashable = false →
      nf_on_import d node = d ∧ nf_on_prune d node = some d) ∧
    (op.hashable = false →
      nf_query d op = Except.error "unhashable and cannot be queried by the optimizer") := by
  refine ⟨?_, ?_, ?_, ?_⟩
  · intro hh hnm
    rcases hl : nfLookup d node.op with _ | ns
    · -- the bucket did not exist: import creates it, prune deletes it
      have himp : nf_on_import d node = d ++ [(node.op, [node])] := by
        simp [nf_on_import, hh, hl]
      have hlk : nfLookup (d ++ [(node.op, [node])]) node.op = some [node] := by
        rw [nfLookup_append_single, hl]
        rfl
      have hprune : nf_on_prune (d ++ [(node.op, [node])]) node
          = some (nfDelete (d ++ [(node.op, [node])]) node.op) := by
        simp [nf_on_prune, hh, hlk, List.erase_cons_head]
      rw [himp, hprune]
      refine ⟨rfl, ?_, ?_⟩
      · rw [show (some (nfDelete (d ++ [(node.op, [node])]) node.op)).getD []
              = nfDelete (d ++ [(node.op, [node])]) node.op from rfl,
            nfLookup_delete]
        rfl
      · rw [show (some (nfDelete (d ++ [(node.op, [node])]) node.op)).getD []
              = nfDelete (d ++ [(node.op, [node])]) node.op from rfl,
            nfLookup_delete]
        simp
    · -- the bucket existed and does not contain the node
      have hnm2 : node ∉ ns := by
        rw [hl] at hnm
        exact hnm
      have himp : nf_on_import d node = nfSet d node.op (ns ++ [node]) := by
        simp [nf_on_import, hh, hl]
      have hlk : nfLookup (nfSet d node.op (ns ++ [node])) node.op
          = some (ns ++ [node]) := by
        rw [nfLookup_set_self, hl]
        rfl
      have hmem : node ∈ ns ++ [node] := by simp
      have herase : (ns ++ [node]).erase node = ns := by
        rw [List.erase_append_right _ hnm2, List.erase_cons_head, List.append_nil]
      rcases hns : ns with _ | ⟨n0, ns0⟩
      · -- the bucket was empty: it gets deleted
        rw [hns] at himp hlk herase hnm2
        have hprune : nf_on_prune (nfSet d node.op ([] ++ [node])) node
            = some (nfDelete (nfSet d node.op ([] ++ [node])) node.op) := by
          simp only [nf_on_prune, hh, hlk]
          simp [herase]
        rw [himp, hprune]
        refine ⟨rfl, ?_, ?_⟩
        · rw [show (some (nfDelete (nfSet d node.op ([] ++ [node])) node.op)).getD []
                = nfDelete (nfSet d node.op ([] ++ [node])) node.op from rfl,
              nfLookup_delete]
          rfl
        · rw [show (some (nfDelete (nfSet d node.op ([] ++ [node])) node.op)).getD []
                = nfDelete (nfSet d node.op ([] ++ [node])) node.op from rfl,
              nfLookup_delete]
          simp
      · -- the bucket stays, shrunk back to its previous contents
        rw [hns] at himp hlk herase hnm2
        have herase2 : (n0 :: (ns0 ++ [node])).erase node = n0 :: ns0 := by
          rw [← List.cons_append]
          exact herase
        have hprune : nf_on_prune (nfSet d node.op ((n0 :: ns0) ++ [node])) node
            = some (nfSet (nfSet d node.op ((n0 :: ns0) ++ [node])) node.op (n0 :: ns0)) := by
          simp only [nf_on_prune, hh, hlk]
          simp [herase2]
        rw [himp, hprune]
        have hlk2 : nfLookup (nfSet (nfSet d node.op ((n0 :: ns0) ++ [node])) node.op
              (n0 :: ns0)) node.op = some (n0 :: ns0) := by
          rw [nfLookup_set_self, hlk]
          rfl
        refine ⟨rfl, ?_, ?_⟩
        · rw [show (some (nfSet (nfSet d node.op ((n0 :: ns0) ++ [node])) node.op
                (n0 :: ns0))).getD []
                = nfSet (nfSet d node.op ((n0 :: ns0) ++ [node])) node.op (n0 :: ns0)
                from rfl,
              hlk2]
          rfl
        · rw [show (some (nfSet (nfSet d node.op ((n0 :: ns0) ++ [node])) node.op
                (n0 :: ns0))).getD []
                = nfSet (nfSet d node.op ((n0 :: ns0) ++ [node])) node.op (n0 :: ns0)
                from rfl,
              hlk2]
          exact hnm2
  · intro hh
    simp [nf_query, hh]
  · intro hh
    constructor
    · simp [nf_on_import, hh]
    · simp [nf_on_prune, hh]
  · intro hh
    simp [nf_query, hh]

/-- Witness for claim C7: a concrete import-then-prune round trip on an empty
index (the bucket is created and fully deleted), a query on a hashable op, and
the two unhashable degraded modes. -/
theorem node_finder_correct_witness :
    ((GNode.mk 1 ⟨2, true⟩).op.hashable = true ∧
     (nf_on_prune (nf_on_import [] ⟨1, ⟨2, true⟩⟩) ⟨1, ⟨2, true⟩⟩).isSome = true ∧
     nfLookup ((nf_on_prune (nf_on_import [] ⟨1, ⟨2, true⟩⟩) ⟨1, ⟨2, true⟩⟩).getD [])
       (⟨2, true⟩ : Op) = none) ∧
    (nf_query [] (⟨2, true⟩ : Op) = Except.ok []) ∧
    (nf_on_import [] (⟨1, ⟨3, false⟩⟩ : GNode) = [] ∧
     nf_on_prune [] (⟨1, ⟨3, false⟩⟩ : GNode) = some []) ∧
    (nf_query [] (⟨3, false⟩ : Op)
      = Except.error "unhashable and cannot be queried by the optimizer") := by
  obtain ⟨p1, p2, p3, p4⟩ := node_finder_correct [] ⟨1, ⟨2, true⟩⟩ ⟨2, true⟩
  obtain ⟨q1, q2, q3⟩ := p1 rfl (by simp [nfLookup])
  obtain ⟨p1u, p2u, p3u, p4u⟩ := node_finder_correct [] ⟨1, ⟨3, false⟩⟩ ⟨3, false⟩
  refine ⟨⟨rfl, q1, ?_⟩, p2 rfl, p3u rfl, p4u rfl⟩
  rw [q2]
  rfl

-- ### Claim C8: Bookkeeper replay

/-- Modelled from the spec: `graph.io_toposort(fgraph.inputs, fgraph.outputs)`
lives in `theano/gof/graph.py`, which is not among the sources; the spec says
the Bookkeeper traversal covers the graph current input-to-output node set in
topological order.  We model the traversal result as an explicit node list
supplied by the external graph (each node appearing once). -/
def io_toposort (topo : List Nat) : List Nat := topo

/-- One `on_import` / `on_prune` invocation observed during a Bookkeeper
traversal. -/
structure BkEvent : Type where
  isImport : Bool
  node : Nat
  reason : String
deriving DecidableEq, Repr

/-- `Bookkeeper.on_attach`: `for node in io_toposort(...): self.on_import(
fgraph, node, "on_attach")` — generic in the subclass `on_import` callback. -/
def bookkeeper_on_attach {α : Type} (on_import : α → Nat → String → α)
    (topo : List Nat) (a : α) : α :=
  (io_toposort topo).foldl (fun a n => on_import a n "on_attach") a

/-- `Bookkeeper.on_detach`: `for node in io_toposort(...): self.on_prune(
fgraph, node, "Bookkeeper.detach")`. -/
def bookkeeper_on_detach {α : Type} (on_prune : α → Nat → String → α)
    (topo : List Nat) (a : α) : α :=
  (io_toposort topo).foldl (fun a n => on_prune a n "Bookkeeper.detach") a

/-- An event-recording callback, used to observe the invocations a Bookkeeper
traversal makes. -/
def recordEvent (isImp : Bool) (evs : List BkEvent) (n : Nat) (r : String) :
    List BkEvent :=
  evs ++ [⟨isImp, n, r⟩]

theorem foldl_record_append (f : Nat → BkEvent) :
    ∀ (topo : List Nat) (evs : List BkEvent),
      topo.foldl (fun a n => a ++ [f n]) evs = evs ++ topo.map f := by
  intro topo
  induction topo with
  | nil => intro evs; simp
  | cons n rest ih =>
      intro evs
      rw [List.foldl_cons, ih (evs ++ [f n]), List.map_cons, List.append_assoc]
      rfl

/-- Claim C8 (amended): `on_attach` invokes the `on_import` callback exactly
once per node of the traversal with reason "on_attach", and `on_detach`
invokes `on_prune` exactly once per node — but with reason
"Bookkeeper.detach", not "detach" as the specification text says. -/
theorem bookkeeper_replay (topo : List Nat) (evs : List BkEvent) (n : Nat)
    (hnd : topo.Nodup) (hm : n ∈ topo) :
    bookkeeper_on_attach (recordEvent true) topo evs
      = evs ++ topo.map (fun m => ⟨true, m, "on_attach"⟩) ∧
    bookkeeper_on_detach (recordEvent false) topo evs
      = evs ++ topo.map (fun m => ⟨false, m, "Bookkeeper.detach"⟩) ∧
    (topo.map (fun m => BkEvent.mk true m "on_attach")).count
      ⟨true, n, "on_attach"⟩ = 1 ∧
    (topo.map (fun m => BkEvent.mk false m "Bookkeeper.detach")).count
      ⟨false, n, "Bookkeeper.detach"⟩ = 1 := by
  have hinj1 : Function.Injective (fun m => BkEvent.mk true m "on_attach") := by
    intro a b hab
    exact congrArg BkEvent.node hab
  have hinj2 : Function.Injective (fun m => BkEvent.mk false m "Bookkeeper.detach") := by
    intro a b hab
    exact congrArg BkEvent.node hab
  refine ⟨?_, ?_, ?_, ?_⟩
  · exact foldl_record_append (fun m => ⟨true, m, "on_attach"⟩) topo evs
  · exact foldl_record_append (fun m => ⟨false, m, "Bookkeeper.detach"⟩) topo evs
  · rw [List.count_map_of_injective topo _ hinj1 n]
    exact List.count_eq_one_of_mem hnd hm
  · rw [List.count_map_of_injective topo _ hinj2 n]
    exact List.count_eq_one_of_mem hnd hm

/-- Claim C8 counterexample: on a one-node graph the detach traversal fires
`on_prune` with reason "Bookkeeper.detach", which differs from the reason
"detach" stated by the claim. -/
theorem bookkeeper_detach_reason_cex :
    bookkeeper_on_detach (recordEvent false) [0] []
      = [⟨false, 0, "Bookkeeper.detach"⟩] ∧
    ("Bookkeeper.detach" : String) ≠ "detach" := by
  refine ⟨rfl, ?_⟩
  decide

/-- Witness for claim C8 (amended): the replay on the concrete traversal
[3, 5]. -/
theorem bookkeeper_replay_witness :
    ([3, 5] : List Nat).Nodup ∧ 3 ∈ ([3, 5] : List Nat) ∧
    bookkeeper_on_attach (recordEvent true) [3, 5] []
      = [⟨true, 3, "on_attach"⟩, ⟨true, 5, "on_attach"⟩] ∧
    (([3, 5] : List Nat).map (fun m => BkEvent.mk true m "on_attach")).count
      ⟨true, 3, "on_attach"⟩ = 1 := by
  obtain ⟨a1, _, a3, _⟩ := bookkeeper_replay [3, 5] [] 3 (by decide) (by decide)
  exact ⟨by decide, by decide, by rw [a1]; rfl, a3⟩

/-- Witness for claim C9 (amended): a concrete stale-handle revert — the
assertion fails with the sentinel installed and a subsequent notification is
dropped. -/
theorem revert_stale_handle_witness :
    sC9.history = some [] ∧ sC9.nb ≠ 0 ∧
    (revert sC9 0).assertOk = false ∧
    (revert sC9 0).st.history = none ∧
    (change_input (revert sC9 0).st 1 0 9 (Reason.user "y")).history = none := by
  obtain ⟨a1, a2, _, _, a5, _⟩ := revert_stale_handle sC9 0 [] rfl (by decide)
  exact ⟨rfl, by decide, a1, a2, a5 1 0 9 (Reason.user "y")⟩
